import Mathlib

/-!
Verification of the untools gql-client repository: a shallow embedding of
the file-upload extraction engine (src/utils/fileUpload.ts), the multipart
request builder and error normalization (src/graphqlRequest.ts), and the
GraphQL-over-WebSocket subscription client (src/websocketClient.ts),
together with proofs of the specified properties.

JavaScript values occurring in a GraphQL variables tree are modelled by the
inductive type `JSVal`: null, undefined, booleans, numbers (the repository
only ever compares and stores them, so integers suffice), strings, native
File handles (identified by an opaque id), native FileList collections,
arrays and plain objects (ordered key/value lists, mirroring JS insertion
order; real JS objects never repeat a key, so theorems quantify over a
superset of the reachable states).
-/

set_option maxHeartbeats 1600000

namespace GqlClient

inductive JSVal where
  | vNull
  | vUndef
  | vBool (b : Bool)
  | vNum (n : Int)
  | vStr (s : String)
  | vFile (fid : Nat)
  | vFileList (items : List JSVal)
  | vArr (items : List JSVal)
  | vObj (fields : List (String × JSVal))

namespace JSVal

/-- First-match association lookup, the model of reading an own property of
a JS object. -/
def lookupField : List (String × JSVal) → String → Option JSVal
  | [], _ => none
  | (k, v) :: fs, key => if k = key then some v else lookupField fs key

/-- JS truthiness: null, undefined, false, 0 and the empty string are falsy;
objects, arrays, files and file lists are always truthy. -/
def jsTruthy : JSVal → Bool
  | .vNull => false
  | .vUndef => false
  | .vBool b => b
  | .vNum n => n ≠ 0
  | .vStr s => s ≠ ""
  | .vFile _ => true
  | .vFileList _ => true
  | .vArr _ => true
  | .vObj _ => true

/-- The JS `a || b` operator: the left operand if truthy, otherwise the
right operand. -/
def jsOr (a b : JSVal) : JSVal := if jsTruthy a then a else b

/-- Property read `v.key` as used on parsed JSON data (`errorData?.error`
etc.): a present object field, `undefined` otherwise. -/
def getField : JSVal → String → JSVal
  | .vObj fs, key => (lookupField fs key).getD .vUndef
  | _, _ => .vUndef

end JSVal

/-- Decimal digit character for a value below ten, as produced by the JS
number-to-string conversion. -/
def decDigit (n : Nat) : Char := Char.ofNat (48 + n)

/-- Decimal digits of `n`, most significant first.  The fuel argument makes
the recursion structural; `n + 1` units always suffice. -/
def decDigitsAux : Nat → Nat → List Char
  | 0, _ => []
  | fuel + 1, n => if n < 10 then [decDigit n] else decDigitsAux fuel (n / 10) ++ [decDigit (n % 10)]

/-- Model of the JS `(n).toString()` conversion for a nonnegative integer:
its decimal numeral. -/
def jsNatToString (n : Nat) : String := ⟨decDigitsAux (n + 1) n⟩

/-- Decimal value of a digit list, used to invert `jsNatToString`. -/
def decValue (l : List Char) : Nat := l.foldl (fun acc c => acc * 10 + (c.toNat - 48)) 0

open JSVal

/-! ### File classification (src/utils/fileUpload.ts)

`hasFiles` classifies a value as a file if it is a native `File`, a native
`FileList`, or an object structurally exposing `name`, `type` and `size`
(duck typing).  The duck check `"name" in value && ...` can only succeed on
a plain object in a variables tree: arrays and file lists expose none of
those properties, and native files are caught by the preceding
`instanceof File` test. -/

/-- The duck-typing test of `hasFiles`/`extractFiles`: the object exposes
`name`, `type` and `size` properties. -/
def isDuckFields (fs : List (String × JSVal)) : Bool :=
  (lookupField fs "name").isSome && (lookupField fs "type").isSome && (lookupField fs "size").isSome

/-- `isFileObject` of `extractFiles`: a native `File` instance, or a
duck-typed file-like object. -/
def isFileObject : JSVal → Bool
  | .vFile _ => true
  | .vObj fs => isDuckFields fs
  | _ => false

/-- `isFileListObject` of `extractFiles`: a native `FileList`, or any
object with a numeric `length` property.  Note that a JS array also has a
numeric `length` own property, so arrays satisfy this test as well and the
later `Array.isArray` branch of `processValue` is unreachable. -/
def isFileListObject : JSVal → Bool
  | .vFileList _ => true
  | .vArr _ => true
  | .vObj fs =>
    match lookupField fs "length" with
    | some (.vNum _) => true
    | _ => false
  | _ => false

/-- Model of `Array.from(value)` for the values accepted by
`isFileListObject`: a file list or array yields its elements; an object
with numeric `length` property `n` yields the properties at keys
`"0" … "(n-1)"`, missing indices giving `undefined`; anything else is
empty. -/
def arrayFrom : JSVal → List JSVal
  | .vFileList items => items
  | .vArr items => items
  | .vObj fs =>
    match lookupField fs "length" with
    | some (.vNum n) =>
      (List.range (if n ≤ 0 then 0 else n.toNat)).map
        (fun i => (lookupField fs (jsNatToString i)).getD .vUndef)
    | _ => []
  | _ => []

mutual

/-- The recursive classifier inside `hasFiles` (`hasFileValue`): File
instance, FileList instance or duck-typed file-like object; arrays are
searched element-wise (`Array.some`), plain objects value-wise
(`Object.values(value).some`). -/
def hasFileValue : JSVal → Bool
  | .vNull => false
  | .vUndef => false
  | .vBool _ => false
  | .vNum _ => false
  | .vStr _ => false
  | .vFile _ => true
  | .vFileList _ => true
  | .vArr items => hasFileInList items
  | .vObj fields =>
    if isDuckFields fields then true
    else hasFileInFields fields

/-- `value.some(hasFileValue)` over the elements of an array. -/
def hasFileInList : List JSVal → Bool
  | [] => false
  | v :: vs => hasFileValue v || hasFileInList vs

/-- `Object.values(value).some(hasFileValue)` over the fields of an
object. -/
def hasFileInFields : List (String × JSVal) → Bool
  | [] => false
  | (_, v) :: fs => hasFileValue v || hasFileInFields fs

end

/-- `hasFiles(vars)`: guard against a falsy argument, then run the
recursive classifier. -/
def hasFiles (vars : JSVal) : Bool :=
  if jsTruthy vars then hasFileValue vars else false

/-! ### Termination support for the extraction traversal -/

/-- A value found by property lookup is structurally smaller than the field
list it came from. -/
theorem lookupField_sizeOf {fs : List (String × JSVal)} {k : String} {w : JSVal}
    (h : lookupField fs k = some w) : sizeOf w < sizeOf fs := by
  induction fs with
  | nil => simp [lookupField] at h
  | cons f rest ih =>
    obtain ⟨k0, v0⟩ := f
    by_cases hk : k0 = k
    · simp [lookupField, hk] at h
      subst h
      simp
      omega
    · simp [lookupField, hk] at h
      have := ih h
      simp
      omega

/-- Every element produced by `arrayFrom v` is structurally smaller than
`v` itself; this justifies the recursion of `processValue` through
`Array.from`. -/
theorem arrayFrom_sizeOf_lt : ∀ (v : JSVal), ∀ e ∈ arrayFrom v, sizeOf e < sizeOf v := by
  intro v e he
  match v with
  | .vNull | .vUndef | .vBool _ | .vNum _ | .vStr _ | .vFile _ =>
    simp [arrayFrom] at he
  | .vFileList items =>
    simp only [arrayFrom] at he
    have := List.sizeOf_lt_of_mem he
    simp
    omega
  | .vArr items =>
    simp only [arrayFrom] at he
    have := List.sizeOf_lt_of_mem he
    simp
    omega
  | .vObj fs =>
    simp only [arrayFrom] at he
    match hl : lookupField fs "length" with
    | some (.vNum n) =>
      rw [hl] at he
      simp only [List.mem_map] at he
      obtain ⟨i, _, hei⟩ := he
      match hlk : lookupField fs (jsNatToString i) with
      | some w =>
        rw [hlk] at hei
        have := lookupField_sizeOf hlk
        simp at hei
        subst hei
        simp
        omega
      | none =>
        rw [hlk] at hei
        simp at hei
        subst hei
        have : 1 ≤ sizeOf fs := by cases fs <;> simp_arith
        simp
        omega
    | some (.vNull) | some (.vUndef) | some (.vBool _) | some (.vStr _)
    | some (.vFile _) | some (.vFileList _) | some (.vArr _) | some (.vObj _) | none =>
      rw [hl] at he
      simp at he

/-! ### The extraction traversal (`extractFiles` of src/utils/fileUpload.ts)

The imperative `files.push` / `map[index] = [path]` mutations are modelled
by threading an explicit state through the traversal: `files` is the list
of extracted file leaves in discovery order and `map` the association list
of map entries in insertion order (keys are decimal numerals assigned from
the current `files.length`, exactly as in the source). -/

structure ExtractState where
  files : List JSVal
  map : List (String × List String)

mutual

/-- `processValue(value, path)` of `extractFiles`: a file leaf is recorded
and replaced by `null`; a file-list-like value is expanded with
`Array.from` and processed element-wise with numeric path segments
(this branch also captures plain arrays, whose dedicated branch below is
therefore unreachable); plain objects are processed field-wise; all other
values pass through unchanged. -/
def processValue (v : JSVal) (path : String) (st : ExtractState) : JSVal × ExtractState :=
  if isFileObject v then
    (.vNull,
     ⟨st.files ++ [v], st.map ++ [(jsNatToString st.files.length, ["variables." ++ path])]⟩)
  else if isFileListObject v then
    let r := processElems v (arrayFrom v) (arrayFrom_sizeOf_lt v) path 0 st
    (.vArr r.1, r.2)
  else
    match v with
    | .vArr items =>
      -- the Array.isArray branch of the source; dead code, since arrays
      -- already satisfy isFileListObject
      let r := processElems (.vArr items) items (fun e he => arrayFrom_sizeOf_lt (.vArr items) e he) path 0 st
      (.vArr r.1, r.2)
    | .vObj fields =>
      let r := processFields fields path st
      (.vObj r.1, r.2)
    | other => (other, st)
termination_by (sizeOf v, (arrayFrom v).length + 1)
decreasing_by
  · exact Prod.Lex.right _ (Nat.lt_succ_self _)
  · apply Prod.Lex.right
    simp [arrayFrom]
  · exact Prod.Lex.left _ _ (by simp)

/-- Element-wise traversal `fileArray.map((file, i) => processValue(file,
path + "." + i))`, threading the extraction state left to right. -/
def processElems (parent : JSVal) (elems : List JSVal)
    (h : ∀ e ∈ elems, sizeOf e < sizeOf parent) (path : String) (i : Nat)
    (st : ExtractState) : List JSVal × ExtractState :=
  match elems with
  | [] => ([], st)
  | e :: es =>
    let r1 := processValue e (path ++ "." ++ jsNatToString i) st
    let r2 := processElems parent es (fun x hx => h x (List.mem_cons_of_mem e hx)) path (i + 1) r1.2
    (r1.1 :: r2.1, r2.2)
termination_by (sizeOf parent, elems.length)
decreasing_by
  · exact Prod.Lex.left _ _ (h e (List.mem_cons_self e es))
  · exact Prod.Lex.right _ (Nat.lt_succ_self _)

/-- Field-wise traversal of a plain object: each value is processed under
the extended dotted path (no dot is prepended at the root). -/
def processFields (fields : List (String × JSVal)) (path : String)
    (st : ExtractState) : List (String × JSVal) × ExtractState :=
  match fields with
  | [] => ([], st)
  | (k, val) :: fs =>
    let r1 := processValue val (if path = "" then k else path ++ "." ++ k) st
    let r2 := processFields fs path r1.2
    ((k, r1.1) :: r2.1, r2.2)
termination_by (sizeOf fields, 0)
decreasing_by
  · exact Prod.Lex.left _ _ (by simp; omega)
  · exact Prod.Lex.left _ _ (by simp)

end

/-- The record returned by `extractFiles`. -/
structure ExtractResult where
  files : List JSVal
  map : List (String × List String)
  cleanVariables : JSVal

/-- `extractFiles(variables)`: run the traversal from the empty path and
empty accumulators. -/
def extractFiles (vars : JSVal) : ExtractResult :=
  let r := processValue vars "" ⟨[], []⟩
  ⟨r.2.files, r.2.map, r.1⟩

/-! ### A pure, path-as-segments view of the traversal

To reason about the stateful traversal we characterise it by two pure
functions over the same recursion structure: `dfsClean` (the cleaned tree)
and `dfsPairs` (the file leaves in discovery order, each with the list of
path segments from the current node).  The characterisation theorem
`processValue_char` below proves the stateful embedding equal to this
view; all spec properties are then proved against the pure view. -/

/-- One segment of a dotted variable path: an object key or an array
index. -/
inductive PathSeg where
  | key (s : String)
  | idx (n : Nat)

/-- Path extension exactly as performed by `processValue`: object keys are
appended with a dot except at the root, numeric indices are always appended
with a dot. -/
def extendPath (p : String) : PathSeg → String
  | .key k => if p = "" then k else p ++ "." ++ k
  | .idx n => p ++ "." ++ jsNatToString n

/-- The dotted path of a node reached from prefix `p` through `segs`. -/
def buildPath (p : String) (segs : List PathSeg) : String := segs.foldl extendPath p

mutual

/-- Pure view of the clean tree produced by `processValue`. -/
def dfsClean (v : JSVal) : JSVal :=
  if isFileObject v then .vNull
  else if isFileListObject v then .vArr (dfsCleanElems v (arrayFrom v) (arrayFrom_sizeOf_lt v))
  else
    match v with
    | .vArr items => .vArr (dfsCleanElems (.vArr items) items (fun e he => arrayFrom_sizeOf_lt (.vArr items) e he))
    | .vObj fields => .vObj (dfsCleanFields fields)
    | other => other
termination_by (sizeOf v, (arrayFrom v).length + 1)
decreasing_by
  · exact Prod.Lex.right _ (Nat.lt_succ_self _)
  · apply Prod.Lex.right
    simp [arrayFrom]
  · exact Prod.Lex.left _ _ (by simp)

/-- Element-wise clean results. -/
def dfsCleanElems (parent : JSVal) (elems : List JSVal)
    (h : ∀ e ∈ elems, sizeOf e < sizeOf parent) : List JSVal :=
  match elems with
  | [] => []
  | e :: es => dfsClean e :: dfsCleanElems parent es (fun x hx => h x (List.mem_cons_of_mem e hx))
termination_by (sizeOf parent, elems.length)
decreasing_by
  · exact Prod.Lex.left _ _ (h e (List.mem_cons_self e es))
  · exact Prod.Lex.right _ (Nat.lt_succ_self _)

/-- Field-wise clean results. -/
def dfsCleanFields (fields : List (String × JSVal)) : List (String × JSVal) :=
  match fields with
  | [] => []
  | (k, val) :: fs => (k, dfsClean val) :: dfsCleanFields fs
termination_by (sizeOf fields, 0)
decreasing_by
  · exact Prod.Lex.left _ _ (by simp; omega)
  · exact Prod.Lex.left _ _ (by simp)

end

mutual

/-- Pure view of the files discovered by `processValue` under a node, in
discovery order, each paired with its relative path segments. -/
def dfsPairs (v : JSVal) : List (JSVal × List PathSeg) :=
  if isFileObject v then [(v, [])]
  else if isFileListObject v then dfsPairsElems v (arrayFrom v) (arrayFrom_sizeOf_lt v) 0
  else
    match v with
    | .vArr items => dfsPairsElems (.vArr items) items (fun e he => arrayFrom_sizeOf_lt (.vArr items) e he) 0
    | .vObj fields => dfsPairsFields fields
    | _ => []
termination_by (sizeOf v, (arrayFrom v).length + 1)
decreasing_by
  · exact Prod.Lex.right _ (Nat.lt_succ_self _)
  · apply Prod.Lex.right
    simp [arrayFrom]
  · exact Prod.Lex.left _ _ (by simp)

/-- Files discovered under the elements of an array-like value, indices
counting from `i`. -/
def dfsPairsElems (parent : JSVal) (elems : List JSVal)
    (h : ∀ e ∈ elems, sizeOf e < sizeOf parent) (i : Nat) : List (JSVal × List PathSeg) :=
  match elems with
  | [] => []
  | e :: es =>
    (dfsPairs e).map (fun q => (q.1, .idx i :: q.2))
      ++ dfsPairsElems parent es (fun x hx => h x (List.mem_cons_of_mem e hx)) (i + 1)
termination_by (sizeOf parent, elems.length)
decreasing_by
  · exact Prod.Lex.left _ _ (h e (List.mem_cons_self e es))
  · exact Prod.Lex.right _ (Nat.lt_succ_self _)

/-- Files discovered under the fields of a plain object. -/
def dfsPairsFields (fields : List (String × JSVal)) : List (JSVal × List PathSeg) :=
  match fields with
  | [] => []
  | (k, val) :: fs => (dfsPairs val).map (fun q => (q.1, .key k :: q.2)) ++ dfsPairsFields fs
termination_by (sizeOf fields, 0)
decreasing_by
  · exact Prod.Lex.left _ _ (by simp; omega)
  · exact Prod.Lex.left _ _ (by simp)

end

/-- Map entries generated for a pair list, keys counting from `k`, paths
rendered from prefix `path`. -/
def mapEntriesFrom (k : Nat) (path : String) : List (JSVal × List PathSeg) → List (String × List String)
  | [] => []
  | q :: rest => (jsNatToString k, ["variables." ++ buildPath path q.2]) :: mapEntriesFrom (k + 1) path rest

/-! ### Helpers shared by the request builder (src/graphqlRequest.ts) -/

/-- First-match lookup in a JS-object-like association list. -/
def assocGet {α : Type} : List (String × α) → String → Option α
  | [], _ => none
  | (k, v) :: fs, key => if k = key then some v else assocGet fs key

/-- JS property assignment or object-spread override: an existing key keeps
its position and receives the new value, a fresh key is appended. -/
def assocSet {α : Type} : List (String × α) → String → α → List (String × α)
  | [], key, v => [(key, v)]
  | (k0, v0) :: fs, key, v =>
    if k0 = key then (k0, v) :: fs else (k0, v0) :: assocSet fs key v

/-- `{...base, ...extra}`: every entry of `extra` assigned into `base` in
order. -/
def spreadInto {α : Type} (base extra : List (String × α)) : List (String × α) :=
  extra.foldl (fun acc kv => assocSet acc kv.1 kv.2) base

/-- `getFilesLength(files)` of src/utils/fileUpload.ts: 0 for a falsy
argument, the length of an array or FileList, and 1 for anything else
(treated as a single File object). -/
def getFilesLength (files : JSVal) : Nat :=
  if ¬ jsTruthy files then 0
  else
    match files with
    | .vArr l => l.length
    | .vFileList l => l.length
    | _ => 1

/-- `convertToFileArray(files)`: empty for a falsy argument, an array as
is, a FileList as `Array.from`, a single File wrapped in a list, anything
else empty for safety. -/
def convertToFileArray (files : JSVal) : List JSVal :=
  if ¬ jsTruthy files then []
  else
    match files with
    | .vArr l => l
    | .vFileList l => l
    | .vFile fid => [.vFile fid]
    | _ => []

/-- `{...cleanVariables, files: x}`: set a field on an object value.  The
variables value is an object by its TypeScript type; spreading a primitive
contributes no fields, which the fallback mirrors. -/
def setObjField (v : JSVal) (k : String) (val : JSVal) : JSVal :=
  match v with
  | .vObj fs => .vObj (assocSet fs k val)
  | _ => .vObj [(k, val)]

/-- The body finally handed to `fetch`: either the three multipart fields
(`operations`, `map`, and the indexed file parts) or the plain JSON
serialization of the options. -/
inductive BuiltBody where
  | multipart (operations : JSVal) (map : List (String × List String)) (fileParts : List JSVal)
  | jsonBody (body : JSVal)

/-- The branch decision of `graphqlRequest`:
`(options.files && getFilesLength(options.files) > 0) ||
 (options.variables && hasFiles(options.variables))`. -/
def hasFilesToUpload (optFiles optVars : Option JSVal) : Bool :=
  (match optFiles with
   | some f => jsTruthy f && decide (getFilesLength f > 0)
   | none => false)
  || (match optVars with
      | some v => jsTruthy v && hasFiles v
      | none => false)

/-- The `Object.keys(extracted.map)[index]` / `extracted.map[originalKey]`
indirection used when merging embedded files into the multipart map. -/
def mapValueAtIndex (m : List (String × List String)) (i : Nat) : List String :=
  match (m.map Prod.fst).get? i with
  | some okey => (assocGet m okey).getD []
  | none => []

/-- The request-body construction of `graphqlRequest` (lines 44–145 of
src/graphqlRequest.ts): decide between the multipart and plain JSON paths;
on the multipart path, first index the explicit `options.files` (declaring
paths `variables.files.<i>` and synthesizing a placeholder `files` array on
the variables when that key is falsy), then merge the files embedded in
`options.variables` via `extractFiles`, re-indexing their map entries after
the explicit ones and replacing `cleanVariables` with the extraction
result. -/
def buildRequestBody (query : String) (optVars optFiles : Option JSVal) : BuiltBody :=
  if hasFilesToUpload optFiles optVars then
    let cleanVariables0 := jsOr (optVars.getD .vUndef) (.vObj [])
    let step1 :=
      match optFiles with
      | some f =>
        if jsTruthy f && decide (getFilesLength f > 0) then
          let filesArray := convertToFileArray f
          let fmap := (List.range filesArray.length).foldl
            (fun m i => assocSet m (jsNatToString i) ["variables.files." ++ jsNatToString i]) []
          let cv :=
            if jsTruthy (getField cleanVariables0 "files") then cleanVariables0
            else setObjField cleanVariables0 "files" (.vArr (List.replicate filesArray.length .vNull))
          (filesArray, fmap, cv)
        else ([], [], cleanVariables0)
      | none => ([], [], cleanVariables0)
    let step2 :=
      match optVars with
      | some v =>
        if jsTruthy v && hasFiles v then
          let extracted := extractFiles v
          let startIdx := step1.1.length
          let fmap2 := (List.range extracted.files.length).foldl
            (fun m i => assocSet m (jsNatToString (startIdx + i)) (mapValueAtIndex extracted.map i))
            step1.2.1
          (step1.1 ++ extracted.files, fmap2, extracted.cleanVariables)
        else step1
      | none => step1
    .multipart (.vObj [("query", .vStr query), ("variables", step2.2.2)]) step2.2.1 step2.1
  else
    .jsonBody (.vObj
      ([("query", JSVal.vStr query)]
        ++ (match optVars with
            | some (.vUndef) => []
            | some v => [("variables", v)]
            | none => [])
        ++ (match optFiles with
            | some (.vUndef) => []
            | some f => [("files", f)]
            | none => [])))

/-! ### Header construction (src/graphqlRequest.ts lines 113–145) -/

/-- `apiKey || defaultApiKey` with JS string truthiness. -/
def jsOrKey (apiKey defaultApiKey : Option String) : Option String :=
  match apiKey with
  | some s => if s ≠ "" then some s else defaultApiKey
  | none => defaultApiKey

/-- `...(effectiveApiKey ? { "x-api-key": effectiveApiKey } : {})`. -/
def apiKeyHeaderFields (eff : Option String) : List (String × String) :=
  match eff with
  | some k => if k ≠ "" then [("x-api-key", k)] else []
  | none => []

/-- The multipart header object: API-key header spread first, then the
instance default headers, then the per-call headers; `Content-Type` is
deliberately left unset for `FormData`. -/
def multipartHeaders (apiKey defaultApiKey : Option String)
    (defaultHeaders : Option (List (String × String)))
    (headers : List (String × String)) : List (String × String) :=
  spreadInto (spreadInto (apiKeyHeaderFields (jsOrKey apiKey defaultApiKey)) (defaultHeaders.getD []))
    headers

/-- The JSON header object: a `Content-Type: application/json` literal
first, then the API-key header, the instance default headers, and the
per-call headers. -/
def jsonPathHeaders (apiKey defaultApiKey : Option String)
    (defaultHeaders : Option (List (String × String)))
    (headers : List (String × String)) : List (String × String) :=
  spreadInto
    (spreadInto
      (spreadInto [("Content-Type", "application/json")] (apiKeyHeaderFields (jsOrKey apiKey defaultApiKey)))
      (defaultHeaders.getD []))
    headers

/-! ### Response and error normalization (src/graphqlRequest.ts 155–191) -/

mutual

/-- JS `String(value)` conversion for the values a thrown error can take
here: strings unchanged, numbers in decimal, arrays joined by commas, plain
objects as the object tag string. -/
def jsToString : JSVal → String
  | .vNull => "null"
  | .vUndef => "undefined"
  | .vBool b => if b then "true" else "false"
  | .vNum n => if n < 0 then "-" ++ jsNatToString (-n).toNat else jsNatToString n.toNat
  | .vStr s => s
  | .vFile _ => "[object File]"
  | .vFileList _ => "[object FileList]"
  | .vArr items => jsJoinComma items
  | .vObj _ => "[object Object]"

/-- `Array.prototype.join(",")`: null and undefined elements render as the
empty string. -/
def jsJoinComma : List JSVal → String
  | [] => ""
  | [v] =>
    match v with
    | .vNull => ""
    | .vUndef => ""
    | w => jsToString w
  | v :: vs =>
    (match v with
     | .vNull => ""
     | .vUndef => ""
     | w => jsToString w) ++ "," ++ jsJoinComma vs

end

/-- The observable outcome of the `fetch` call: either a response record
(status flag, status text, JSON body when parseable, raw text body) or a
thrown network error. -/
structure FetchResponse where
  ok : Bool
  statusText : String
  jsonBody : Option JSVal
  textBody : String

/-- A run of the low-level request: the fetch either resolves to a
response or rejects. -/
inductive FetchOutcome where
  | success (r : FetchResponse)
  | networkError (e : JSVal)

/-- The thrown value for a non-success status:
`errorData?.error || errorData?.message || errorData?.error?.message ||
response.statusText`. -/
def selectThrown (errorData : JSVal) (statusText : String) : JSVal :=
  jsOr (jsOr (jsOr (getField errorData "error") (getField errorData "message"))
      (getField (getField errorData "error") "message"))
    (.vStr statusText)

/-- The body of the `try` block after `fetch`, with every JS `throw`
modelled as `Except.error`: a successful status returns the parsed body
(a failed parse rejects); a non-success status parses the body as JSON if
possible, else captures the raw text under `error`, and throws the selected
message value. -/
def innerRequest (o : FetchOutcome) : Except JSVal JSVal :=
  match o with
  | .networkError e => .error e
  | .success r =>
    if r.ok then
      match r.jsonBody with
      | some b => .ok b
      | none => .error (.vObj [("message", .vStr "Unexpected end of JSON input")])
    else
      let errorDataVal :=
        match r.jsonBody with
        | some d => d
        | none => .vObj [("error", .vStr r.textBody)]
      .error (selectThrown errorDataVal r.statusText)

/-- The catch-all normalizer:
`error?.message || String(error) || "An error occurred"`. -/
def catchMessage (e : JSVal) : JSVal :=
  jsOr (jsOr (getField e "message") (.vStr (jsToString e))) (.vStr "An error occurred")

/-- The uniform error response returned from the catch block. -/
def errorResponse (m : JSVal) : JSVal :=
  .vObj [("data", .vUndef), ("errors", .vArr [.vObj [("message", m)]])]

/-- `graphqlRequest` seen from the caller: the `try` body with its
catch-all handler. -/
def runRequest (o : FetchOutcome) : JSVal :=
  match innerRequest o with
  | .ok v => v
  | .error e => errorResponse (catchMessage e)

/-! ### The WebSocket subscription client (src/websocketClient.ts) -/

/-- A registered subscription: the options stored by `subscribe`; the
callbacks are recorded by presence, deliveries being observed as effects. -/
structure SubOptions where
  query : String
  vars : JSVal
  hasOnNext : Bool
  hasOnError : Bool
  hasOnComplete : Bool

/-- An inbound protocol frame after `JSON.parse`. -/
structure InMsg where
  mtype : String
  mid : Option String
  payload : JSVal

/-- Observable actions of `handleMessage`: a callback invocation for a
subscription id, or an outbound `pong` frame. -/
inductive WSEffect where
  | emitOnNext (id : String) (payload : JSVal)
  | emitOnError (id : String) (message : String)
  | emitOnComplete (id : String)
  | sendPong

/-- `subscriptions.get(message.id)`. -/
def regGet (reg : List (String × SubOptions)) (mid : Option String) : Option SubOptions :=
  match mid with
  | some i => assocGet reg i
  | none => none

/-- `subscriptions.delete(message.id)`; a JS `Map` holds each key at most
once, so removing every binding of the key is the same operation. -/
def regDelete (reg : List (String × SubOptions)) (mid : Option String) :
    List (String × SubOptions) :=
  match mid with
  | some i => reg.filter (fun e => e.1 ≠ i)
  | none => reg

/-- The `switch (message.type)` router of `handleMessage`: `next` and
`error` deliver to the registered callback and retain the entry, `complete`
delivers and then deletes the entry, `ping` answers `pong`, and everything
else (including `connection_ack`) is only logged. -/
def handleMessage (reg : List (String × SubOptions)) (m : InMsg) :
    List (String × SubOptions) × List WSEffect :=
  if m.mtype = "connection_ack" then (reg, [])
  else if m.mtype = "ping" then (reg, [.sendPong])
  else if m.mtype = "pong" then (reg, [])
  else if m.mtype = "next" then
    match regGet reg m.mid with
    | some sub =>
      if sub.hasOnNext then (reg, [.emitOnNext (m.mid.getD "") m.payload]) else (reg, [])
    | none => (reg, [])
  else if m.mtype = "error" then
    match regGet reg m.mid with
    | some sub =>
      if sub.hasOnError then
        (reg, [.emitOnError (m.mid.getD "")
          (jsToString (jsOr (getField m.payload "message") (.vStr "Subscription error")))])
      else (reg, [])
    | none => (reg, [])
  else if m.mtype = "complete" then
    let effs :=
      match regGet reg m.mid with
      | some sub => if sub.hasOnComplete then [WSEffect.emitOnComplete (m.mid.getD "")] else []
      | none => []
    (regDelete reg m.mid, effs)
  else (reg, [])

/-- The connection-level mutable state of `GraphQLWebSocketClient`;
`scheduledDelays` observes, in order, the delays passed to `setTimeout` by
`scheduleReconnect`. -/
structure WSConn where
  shouldReconnect : Bool
  reconnectAttempts : Nat
  maxReconnectAttempts : Nat
  reconnectDelay : Nat
  wsOpen : Bool
  connecting : Bool
  pingActive : Bool
  scheduledDelays : List Nat

/-- The field initializers of the class: reconnection enabled, counter 0,
ceiling 10, base delay 1000, no socket. -/
def initConn : WSConn :=
  { shouldReconnect := true, reconnectAttempts := 0, maxReconnectAttempts := 10,
    reconnectDelay := 1000, wsOpen := false, connecting := false, pingActive := false,
    scheduledDelays := [] }

/-- `scheduleReconnect()`: increment the attempt counter and schedule a
single-shot timer after `reconnectDelay * 2 ^ (attempts - 1)`. -/
def scheduleReconnect (st : WSConn) : WSConn :=
  let attempts := st.reconnectAttempts + 1
  let delay := st.reconnectDelay * 2 ^ (attempts - 1)
  { st with reconnectAttempts := attempts, scheduledDelays := st.scheduledDelays ++ [delay] }

/-- The `onclose` handler: the socket is no longer open, the ping interval
is stopped, and a reconnect is scheduled only while `shouldReconnect` holds
and the attempt counter is below the ceiling. -/
def onCloseEvent (st : WSConn) : WSConn :=
  let st1 := { st with connecting := false, pingActive := false, wsOpen := false }
  if st1.shouldReconnect && decide (st1.reconnectAttempts < st1.maxReconnectAttempts) then
    scheduleReconnect st1
  else st1

/-- The `onopen` handler: connection established, attempt counter reset,
ping interval started. -/
def onOpenEvent (st : WSConn) : WSConn :=
  { st with connecting := false, reconnectAttempts := 0, wsOpen := true, pingActive := true }

/-- `isConnected()`: the socket exists and its ready state is OPEN. -/
def isConnected (st : WSConn) : Bool := st.wsOpen

/-- `n` consecutive transport closures (each scheduled `connect()` attempt
failing again before any `onopen` fires). -/
def iterateClose : Nat → WSConn → WSConn
  | 0, st => st
  | n + 1, st => iterateClose n (onCloseEvent st)

/-- The subscription-level state of the client: the id counter and the
registry, plus the reconnection flag touched by `close`/`reconnect`. -/
structure WSClient where
  messageId : Nat
  registry : List (String × SubOptions)
  shouldReconnect : Bool

/-- The constructed client: `messageId = 0`, empty registry. -/
def initClient : WSClient := { messageId := 0, registry := [], shouldReconnect := true }

/-- `subscribe(options)` after the connect suspension: allocate
`(++this.messageId).toString()`, store the options, return the id. -/
def subscribeStep (c : WSClient) (opts : SubOptions) : String × WSClient :=
  let newId := c.messageId + 1
  let id := jsNatToString newId
  (id, { c with messageId := newId, registry := assocSet c.registry id opts })

/-- The returned unsubscribe closure: send `stop` and drop the entry. -/
def unsubscribeStep (c : WSClient) (id : String) : WSClient :=
  { c with registry := c.registry.filter (fun e => e.1 ≠ id) }

/-- `close()`: disable reconnection and clear the registry (no callback is
invoked). -/
def closeStep (c : WSClient) : WSClient :=
  { c with shouldReconnect := false, registry := [] }

/-- `reconnect()`: `close()` then re-enable reconnection; the id counter is
not touched. -/
def reconnectStep (c : WSClient) : WSClient :=
  { closeStep c with shouldReconnect := true }

/-- Routing an inbound frame through `handleMessage`. -/
def messageStep (c : WSClient) (m : InMsg) : WSClient :=
  { c with registry := (handleMessage c.registry m).1 }

/-- The client operations that touch the registry or the id counter. -/
inductive ClientOp where
  | subOp (opts : SubOptions)
  | unsubOp (id : String)
  | closeOp
  | reconnectOp
  | msgOp (m : InMsg)

/-- Run a sequence of operations, collecting the ids returned by the
`subscribe` calls in order. -/
def runOps : WSClient → List ClientOp → WSClient × List String
  | c, [] => (c, [])
  | c, op :: rest =>
    match op with
    | .subOp opts =>
      let r := subscribeStep c opts
      let rr := runOps r.2 rest
      (rr.1, r.1 :: rr.2)
    | .unsubOp id => runOps (unsubscribeStep c id) rest
    | .closeOp => runOps (closeStep c) rest
    | .reconnectOp => runOps (reconnectStep c) rest
    | .msgOp m => runOps (messageStep c m) rest

/-! ### Specification-side definitions

The following definitions formalise the wording of the specification and
the reconstruction used by the round-trip property; they are compared
against the source-derived definitions above. -/

mutual

/-- Written from the spec: the input tree with every file leaf (native
file or duck-typed file-like object) replaced by `null` and everything
else unchanged. -/
def nullifyFiles : JSVal → JSVal
  | .vFile _ => .vNull
  | .vFileList items => .vFileList (nullifyList items)
  | .vArr items => .vArr (nullifyList items)
  | .vObj fs => if isDuckFields fs then .vNull else .vObj (nullifyFields fs)
  | other => other

/-- Element-wise `nullifyFiles`. -/
def nullifyList : List JSVal → List JSVal
  | [] => []
  | v :: vs => nullifyFiles v :: nullifyList vs

/-- Field-wise `nullifyFiles`. -/
def nullifyFields : List (String × JSVal) → List (String × JSVal)
  | [] => []
  | (k, v) :: fs => (k, nullifyFiles v) :: nullifyFields fs

end

mutual

/-- No value in the tree triggers the file-list coercion of
`extractFiles`: no native `FileList` and no non-array object carrying a
numeric `length` property. -/
def noArrayLike : JSVal → Bool
  | .vFileList _ => false
  | .vArr items => noArrayLikeList items
  | .vObj fs =>
    (match lookupField fs "length" with
     | some (.vNum _) => false
     | _ => true) && noArrayLikeFields fs
  | _ => true

/-- Element-wise `noArrayLike`. -/
def noArrayLikeList : List JSVal → Bool
  | [] => true
  | v :: vs => noArrayLike v && noArrayLikeList vs

/-- Field-wise `noArrayLike`. -/
def noArrayLikeFields : List (String × JSVal) → Bool
  | [] => true
  | (_, v) :: fs => noArrayLike v && noArrayLikeFields fs

end

/-- A usable object key for dotted paths: nonempty and without a dot. -/
def keyGood (k : String) : Bool :=
  k ≠ "" && ¬ k.data.contains '.'

mutual

/-- Every object in the tree has pairwise distinct, nonempty, dot-free
keys (the shape of a GraphQL variables object). -/
def goodKeys : JSVal → Bool
  | .vFileList items => goodKeysList items
  | .vArr items => goodKeysList items
  | .vObj fs => fs.all (fun kv => keyGood kv.1) && decide ((fs.map Prod.fst).Nodup) && goodKeysFields fs
  | _ => true

/-- Element-wise `goodKeys`. -/
def goodKeysList : List JSVal → Bool
  | [] => true
  | v :: vs => goodKeys v && goodKeysList vs

/-- Field-wise `goodKeys`. -/
def goodKeysFields : List (String × JSVal) → Bool
  | [] => true
  | (_, v) :: fs => goodKeys v && goodKeysFields fs

end

/-- Split a character list at every dot. -/
def splitDots : List Char → List (List Char)
  | [] => [[]]
  | c :: rest =>
    if c = '.' then [] :: splitDots rest
    else
      match splitDots rest with
      | [] => [[c]]
      | seg :: segs => (c :: seg) :: segs

/-- The segments of a recorded dotted path string. -/
def pathSegs (s : String) : List String := (splitDots s.data).map (fun cs => ⟨cs⟩)

mutual

/-- Substitution at a dotted path, the reconstruction step of the
round-trip property: descend along the segments, matching object keys
directly and array positions by their decimal numeral, and place the
replacement at the addressed spot; an unresolvable path leaves the tree
unchanged. -/
def setAtPath : JSVal → List String → JSVal → JSVal
  | _, [], repl => repl
  | .vObj fs, seg :: rest, repl => .vObj (setInFields fs seg rest repl)
  | .vArr items, seg :: rest, repl => .vArr (setInElems items seg rest repl 0)
  | other, _ :: _, _ => other
termination_by _ segs _ => (segs.length, 0)
decreasing_by
  · exact Prod.Lex.left _ _ (Nat.lt_succ_self _)
  · exact Prod.Lex.left _ _ (Nat.lt_succ_self _)

/-- Substitute below the first field whose key matches the segment. -/
def setInFields : List (String × JSVal) → String → List String → JSVal → List (String × JSVal)
  | [], _, _, _ => []
  | (k, v) :: fs, seg, rest, repl =>
    if k = seg then (k, setAtPath v rest repl) :: fs
    else (k, v) :: setInFields fs seg rest repl
termination_by fs _ rest _ => (rest.length, fs.length)
decreasing_by
  · exact Prod.Lex.right _ (by simp)
  · exact Prod.Lex.right _ (Nat.lt_succ_self _)

/-- Substitute below the position whose decimal numeral matches the
segment. -/
def setInElems : List JSVal → String → List String → JSVal → Nat → List JSVal
  | [], _, _, _, _ => []
  | e :: es, seg, rest, repl, i =>
    if jsNatToString i = seg then setAtPath e rest repl :: es
    else e :: setInElems es seg rest repl (i + 1)
termination_by es _ rest _ _ => (rest.length, es.length)
decreasing_by
  · exact Prod.Lex.right _ (by simp)
  · exact Prod.Lex.right _ (Nat.lt_succ_self _)

end

/-- Render relative path segments as strings. -/
def segsToStrings (segs : List PathSeg) : List String :=
  segs.map (fun s =>
    match s with
    | .key k => k
    | .idx n => jsNatToString n)

/-- Fold a list of (file, relative segments) substitutions into a tree. -/
def substList (c : JSVal) (ps : List (JSVal × List PathSeg)) : JSVal :=
  ps.foldl (fun acc q => setAtPath acc (segsToStrings q.2) q.1) c

/-- Written from the spec (round-trip property): substitute `files[i]`
back at the path recorded in `map[i]` into `cleanVariables`, for every
index `i`; the leading `variables` segment addresses the variables root. -/
def reconstructFromMap (r : ExtractResult) : JSVal :=
  (r.map.zip r.files).foldl
    (fun acc entry =>
      entry.1.2.foldl (fun a p => setAtPath a ((pathSegs p).drop 1) entry.2) acc)
    r.cleanVariables

/-- Is the value the JS `undefined`? -/
def isUndef : JSVal → Bool
  | .vUndef => true
  | _ => false

/-- Written from the spec: the error message selected as the first
`defined` (not `undefined`) of the parsed `error` field, the parsed
`message` field, the nested `error.message`, or the raw status text. -/
def specFirstDefined (d : JSVal) (statusText : String) : JSVal :=
  if ¬ isUndef (getField d "error") then getField d "error"
  else if ¬ isUndef (getField d "message") then getField d "message"
  else if ¬ isUndef (getField (getField d "error") "message") then getField (getField d "error") "message"
  else .vStr statusText

/-! ## Theorems

### Decimal numerals -/

theorem decValue_append (l : List Char) (c : Char) :
    decValue (l ++ [c]) = decValue l * 10 + (c.toNat - 48) := by
  simp [decValue, List.foldl_append]

theorem decDigit_toNat {n : Nat} (h : n < 10) : (decDigit n).toNat = 48 + n := by
  interval_cases n <;> decide

theorem decValue_decDigitsAux : ∀ f n, n < f → decValue (decDigitsAux f n) = n := by
  intro f
  induction f with
  | zero => omega
  | succ f ih =>
    intro n hn
    by_cases h10 : n < 10
    · simp [decDigitsAux, h10, decValue, decDigit_toNat h10]
    · have hdiv : n / 10 < f := by
        have h1 : n / 10 < n := Nat.div_lt_self (by omega) (by omega)
        omega
      simp only [decDigitsAux, if_neg h10]
      rw [decValue_append, ih _ hdiv, decDigit_toNat (Nat.mod_lt n (by omega))]
      omega

theorem jsNatToString_decValue (n : Nat) : decValue (jsNatToString n).data = n := by
  simpa [jsNatToString] using decValue_decDigitsAux (n + 1) n (Nat.lt_succ_self n)

theorem jsNatToString_inj {m n : Nat} (h : jsNatToString m = jsNatToString n) : m = n := by
  have hd : (jsNatToString m).data = (jsNatToString n).data := by rw [h]
  have h1 := jsNatToString_decValue m
  have h2 := jsNatToString_decValue n
  rw [hd] at h1
  omega

theorem decDigitsAux_ne_nil : ∀ f n, n < f → decDigitsAux f n ≠ [] := by
  intro f
  induction f with
  | zero => omega
  | succ f _ =>
    intro n _
    by_cases h10 : n < 10
    · simp [decDigitsAux, h10]
    · simp [decDigitsAux, h10]

theorem jsNatToString_ne_empty (n : Nat) : jsNatToString n ≠ "" := by
  intro h
  have hd : (jsNatToString n).data = [] := by rw [h]
  exact decDigitsAux_ne_nil (n + 1) n (Nat.lt_succ_self n) hd

theorem decDigitsAux_digits : ∀ f n c, c ∈ decDigitsAux f n → 48 ≤ c.toNat ∧ c.toNat ≤ 57 := by
  intro f
  induction f with
  | zero => intro n c hc; simp [decDigitsAux] at hc
  | succ f ih =>
    intro n c hc
    by_cases h10 : n < 10
    · simp [decDigitsAux, h10] at hc
      subst hc
      rw [decDigit_toNat h10]
      omega
    · simp only [decDigitsAux, if_neg h10, List.mem_append, List.mem_singleton] at hc
      rcases hc with hc | hc
      · exact ih _ _ hc
      · subst hc
        rw [decDigit_toNat (Nat.mod_lt n (by omega))]
        omega

theorem jsNatToString_no_dot (n : Nat) : '.' ∉ (jsNatToString n).data := by
  intro h
  have h1 := decDigitsAux_digits (n + 1) n _ h
  have h2 : ('.').toNat = 46 := by decide
  omega

/-! ### Characterisation of the extraction traversal -/

theorem mapEntriesFrom_append (p : String) :
    ∀ (xs ys : List (JSVal × List PathSeg)) (k : Nat),
      mapEntriesFrom k p (xs ++ ys) = mapEntriesFrom k p xs ++ mapEntriesFrom (k + xs.length) p ys := by
  intro xs
  induction xs with
  | nil => simp [mapEntriesFrom]
  | cons q rest ih =>
    intro ys k
    simp only [List.cons_append, mapEntriesFrom, List.append_eq, ih, List.length_cons]
    have h2 : k + (rest.length + 1) = k + 1 + rest.length := by omega
    rw [h2]

theorem mapEntriesFrom_seg (p : String) (s : PathSeg) :
    ∀ (ps : List (JSVal × List PathSeg)) (k : Nat),
      mapEntriesFrom k p (ps.map (fun q => (q.1, s :: q.2))) = mapEntriesFrom k (extendPath p s) ps := by
  intro ps
  induction ps with
  | nil => simp [mapEntriesFrom]
  | cons q rest ih =>
    intro k
    simp only [List.map_cons, mapEntriesFrom, ih, buildPath, List.foldl_cons]

/-- The stateful traversal of `processValue` appends exactly the files and
map entries of the pure depth-first view, with map keys counting from the
incoming file count. -/
theorem processValue_char :
    (∀ (v : JSVal) (path : String) (st : ExtractState),
      processValue v path st =
        (dfsClean v,
         ⟨st.files ++ (dfsPairs v).map Prod.fst,
          st.map ++ mapEntriesFrom st.files.length path (dfsPairs v)⟩))
    ∧ (∀ (fields : List (String × JSVal)) (path : String) (st : ExtractState),
      processFields fields path st =
        (dfsCleanFields fields,
         ⟨st.files ++ (dfsPairsFields fields).map Prod.fst,
          st.map ++ mapEntriesFrom st.files.length path (dfsPairsFields fields)⟩))
    ∧ (∀ (parent : JSVal) (elems : List JSVal) (h : ∀ e ∈ elems, sizeOf e < sizeOf parent)
        (path : String) (i : Nat) (st : ExtractState),
      processElems parent elems h path i st =
        (dfsCleanElems parent elems h,
         ⟨st.files ++ (dfsPairsElems parent elems h i).map Prod.fst,
          st.map ++ mapEntriesFrom st.files.length path (dfsPairsElems parent elems h i)⟩)) := by
  apply processValue.mutual_induct
  case case1 =>
    intro v path st hfile
    rw [processValue.eq_def, dfsClean.eq_def, dfsPairs.eq_def]
    simp [hfile, mapEntriesFrom, buildPath]
  case case2 =>
    intro v path st hfile hlist ih
    rw [processValue.eq_def, dfsClean.eq_def, dfsPairs.eq_def]
    simp [hfile, hlist, ih]
  case case3 =>
    intro path st items hfile hlist _
    exact absurd rfl hlist
  case case4 =>
    intro path st fields hfile hlist ih
    rw [processValue.eq_def, dfsClean.eq_def, dfsPairs.eq_def]
    simp [hfile, hlist, ih]
  case case5 =>
    intro path st other harr hobj hfile hlist
    match other with
    | .vNull | .vUndef | .vBool _ | .vNum _ | .vStr _ =>
      simp [processValue, dfsClean, dfsPairs, isFileObject, isFileListObject, mapEntriesFrom]
    | .vFile f => exact absurd rfl hfile
    | .vFileList l => exact absurd rfl hlist
    | .vArr items => exact (harr items rfl).elim
    | .vObj fs => exact (hobj fs rfl).elim
  case case6 =>
    intro path st
    simp [processFields, dfsCleanFields, dfsPairsFields, mapEntriesFrom]
  case case7 =>
    intro path st k val fs
    dsimp only
    intro ih1 ih2
    simp only [dite_eq_ite] at ih1 ih2
    rw [ih1] at ih2
    simp [processFields, ih1, ih2, dfsCleanFields, dfsPairsFields, mapEntriesFrom_append,
      mapEntriesFrom_seg, extendPath, List.append_assoc]
  case case8 =>
    intro parent path i st h _
    simp [processElems, dfsCleanElems, dfsPairsElems, mapEntriesFrom]
  case case9 =>
    intro parent path i st e es h
    dsimp only
    intro hdup ih1 ih2
    rw [ih1] at ih2
    simp [processElems, ih1, ih2, dfsCleanElems, dfsPairsElems, mapEntriesFrom_append,
      mapEntriesFrom_seg, extendPath, List.append_assoc]

/-- `extractFiles` in terms of the pure depth-first view. -/
theorem extractFiles_eq (vars : JSVal) :
    extractFiles vars =
      ⟨(dfsPairs vars).map Prod.fst, mapEntriesFrom 0 "" (dfsPairs vars), dfsClean vars⟩ := by
  simp [extractFiles, processValue_char.1]


/-! ### Association list helpers -/

theorem assocGet_assocSet {α : Type} (l : List (String × α)) (k : String) (v : α) (q : String) :
    assocGet (assocSet l k v) q = if q = k then some v else assocGet l q := by
  induction l with
  | nil =>
    simp only [assocSet, assocGet]
    by_cases hq : q = k
    · simp [hq]
    · simp [hq, Ne.symm hq]
  | cons e rest ih =>
    obtain ⟨k0, v0⟩ := e
    simp only [assocSet]
    by_cases h0 : k0 = k
    · subst h0
      simp only [if_pos rfl, assocGet]
      by_cases hq : q = k0
      · simp [hq]
      · simp [hq, Ne.symm hq]
    · simp only [if_neg h0, assocGet, ih]
      by_cases hq : k0 = q
      · have hqk : ¬ q = k := fun hh => h0 (hq.trans hh)
        simp [hq, hqk]
      · simp [hq]

theorem assocGet_eq_none_of_not_mem {α : Type} {l : List (String × α)} {k : String}
    (h : k ∉ l.map Prod.fst) : assocGet l k = none := by
  induction l with
  | nil => rfl
  | cons e rest ih =>
    obtain ⟨k0, v0⟩ := e
    simp only [List.map_cons, List.mem_cons] at h
    push_neg at h
    simp only [assocGet]
    rw [if_neg (fun hh => h.1 hh.symm)]
    exact ih h.2

theorem assocGet_spreadInto {α : Type} (extra : List (String × α))
    (hnd : (extra.map Prod.fst).Nodup) :
    ∀ (base : List (String × α)) (k : String),
      assocGet (spreadInto base extra) k = (assocGet extra k).or (assocGet base k) := by
  induction extra with
  | nil => intro base k; simp [spreadInto, assocGet]
  | cons e rest ih =>
    intro base k
    obtain ⟨k0, v0⟩ := e
    simp only [List.map_cons, List.nodup_cons] at hnd
    have hstep : spreadInto base ((k0, v0) :: rest) = spreadInto (assocSet base k0 v0) rest := by
      simp [spreadInto]
    rw [hstep, ih hnd.2, assocGet_assocSet]
    by_cases hq : k = k0
    · subst hq
      have hre : assocGet rest k = none := assocGet_eq_none_of_not_mem hnd.1
      simp [assocGet, hre]
    · simp only [assocGet, if_neg (fun hh : k0 = k => hq hh.symm), if_neg hq]

theorem assocGet_filter_ne {α : Type} (l : List (String × α)) (id : String) :
    assocGet (l.filter (fun e => e.1 ≠ id)) id = none := by
  induction l with
  | nil => rfl
  | cons e rest ih =>
    rw [List.filter_cons]
    by_cases he : e.1 = id
    · simpa [he] using ih
    · simpa [he, assocGet] using ih

/-! ### Claim C4 -/

/-- Claim C4: with base delay 1000, each transport closure while
reconnection is enabled and the attempt counter is below the ceiling
increments the counter and schedules a reconnect after
`base_delay * 2 ^ (attempts - 1)`; three consecutive closures schedule the
delays 1000, 2000, 4000 in order; once the attempt counter reaches the
default ceiling 10, no further reconnect is scheduled and `isConnected()`
stays false. -/
theorem claim_C4_reconnect_backoff :
    (∀ st : WSConn, st.shouldReconnect = true →
      st.reconnectAttempts < st.maxReconnectAttempts →
      (onCloseEvent st).reconnectAttempts = st.reconnectAttempts + 1 ∧
      (onCloseEvent st).scheduledDelays
        = st.scheduledDelays ++ [st.reconnectDelay * 2 ^ st.reconnectAttempts]) ∧
    (iterateClose 3 initConn).scheduledDelays = [1000, 2000, 4000] ∧
    (∀ k : Nat,
      (iterateClose k (iterateClose 10 initConn)).scheduledDelays
        = (iterateClose 10 initConn).scheduledDelays ∧
      isConnected (iterateClose k (iterateClose 10 initConn)) = false) := by
  refine ⟨?_, ?_, ?_⟩
  · intro st h1 h2
    simp [onCloseEvent, scheduleReconnect, h1, h2]
  · rfl
  · have hfix : ∀ k, iterateClose k (iterateClose 10 initConn) = iterateClose 10 initConn := by
      intro k
      induction k with
      | zero => rfl
      | succ k ih =>
        have hstep : onCloseEvent (iterateClose 10 initConn) = iterateClose 10 initConn := by
          rfl
        calc iterateClose (k + 1) (iterateClose 10 initConn)
            = iterateClose k (onCloseEvent (iterateClose 10 initConn)) := rfl
          _ = iterateClose k (iterateClose 10 initConn) := by rw [hstep]
          _ = iterateClose 10 initConn := ih
    intro k
    rw [hfix k]
    exact ⟨rfl, rfl⟩

/-- Witness for claim C4 at the freshly constructed connection state. -/
theorem claim_C4_reconnect_backoff_witness :
    (onCloseEvent initConn).reconnectAttempts = initConn.reconnectAttempts + 1 ∧
    (onCloseEvent initConn).scheduledDelays
      = initConn.scheduledDelays ++ [initConn.reconnectDelay * 2 ^ initConn.reconnectAttempts] :=
  claim_C4_reconnect_backoff.1 initConn rfl (by decide)

/-! ### Claim C5 -/

/-- Claim C5: an inbound `error` frame for an active subscription id
invokes that subscription onError callback but leaves the registry
unchanged; a subsequently delivered `complete` frame for the same id still
invokes onComplete and then removes the entry. -/
theorem claim_C5_error_retains_subscription :
    ∀ (reg : List (String × SubOptions)) (id : String) (opts : SubOptions) (p1 p2 : JSVal),
      assocGet reg id = some opts → opts.hasOnError = true → opts.hasOnComplete = true →
      (handleMessage reg ⟨"error", some id, p1⟩).1 = reg ∧
      (handleMessage reg ⟨"error", some id, p1⟩).2
        = [.emitOnError id (jsToString (jsOr (getField p1 "message") (.vStr "Subscription error")))] ∧
      (handleMessage (handleMessage reg ⟨"error", some id, p1⟩).1 ⟨"complete", some id, p2⟩).2
        = [.emitOnComplete id] ∧
      assocGet (handleMessage (handleMessage reg ⟨"error", some id, p1⟩).1
        ⟨"complete", some id, p2⟩).1 id = none := by
  intro reg id opts p1 p2 hget herr hcomp
  have h1 : (handleMessage reg ⟨"error", some id, p1⟩).1 = reg := by
    simp [handleMessage, regGet, hget, herr]
  refine ⟨h1, ?_, ?_, ?_⟩
  · simp [handleMessage, regGet, hget, herr]
  · rw [h1]
    simp [handleMessage, regGet, hget, hcomp]
  · rw [h1]
    simp [handleMessage, regGet, hget, hcomp, regDelete]
    simpa using assocGet_filter_ne reg id

/-- Witness for claim C5 on a one-entry registry. -/
theorem claim_C5_error_retains_subscription_witness :
    (handleMessage [("1", ⟨"q", .vNull, true, true, true⟩)] ⟨"error", some "1", .vObj [("message", .vStr "boom")]⟩).1
      = [("1", ⟨"q", .vNull, true, true, true⟩)] ∧
    (handleMessage [("1", ⟨"q", .vNull, true, true, true⟩)] ⟨"error", some "1", .vObj [("message", .vStr "boom")]⟩).2
      = [.emitOnError "1" (jsToString (jsOr (getField (.vObj [("message", .vStr "boom")]) "message") (.vStr "Subscription error")))] ∧
    (handleMessage (handleMessage [("1", ⟨"q", .vNull, true, true, true⟩)] ⟨"error", some "1", .vObj [("message", .vStr "boom")]⟩).1
      ⟨"complete", some "1", .vNull⟩).2 = [.emitOnComplete "1"] ∧
    assocGet (handleMessage (handleMessage [("1", ⟨"q", .vNull, true, true, true⟩)] ⟨"error", some "1", .vObj [("message", .vStr "boom")]⟩).1
      ⟨"complete", some "1", .vNull⟩).1 "1" = none :=
  claim_C5_error_retains_subscription [("1", ⟨"q", .vNull, true, true, true⟩)] "1"
    ⟨"q", .vNull, true, true, true⟩ (.vObj [("message", .vStr "boom")]) .vNull rfl rfl rfl

/-- The api-key header object has at most one entry. -/
theorem apiKeyHeaderFields_nodup (eff : Option String) :
    ((apiKeyHeaderFields eff).map Prod.fst).Nodup := by
  match eff with
  | none => simp [apiKeyHeaderFields]
  | some k =>
    by_cases hk : k = "" <;> simp [apiKeyHeaderFields, hk]

/-! ### Claim C6 -/

/-- Claim C6: for both the multipart and the plain JSON body, the request
headers are the API-key-derived header first, then the instance default
headers, then the per-call headers, each later layer overriding keys of an
earlier layer (for the JSON body the `Content-Type: application/json`
literal sits below all three layers). -/
theorem claim_C6_header_precedence :
    ∀ (apiKey defaultApiKey : Option String)
      (defaultHeaders : Option (List (String × String)))
      (headers : List (String × String)) (key : String),
      (headers.map Prod.fst).Nodup →
      ((defaultHeaders.getD []).map Prod.fst).Nodup →
      assocGet (multipartHeaders apiKey defaultApiKey defaultHeaders headers) key
        = ((assocGet headers key).or
            ((assocGet (defaultHeaders.getD []) key).or
              (assocGet (apiKeyHeaderFields (jsOrKey apiKey defaultApiKey)) key))) ∧
      assocGet (jsonPathHeaders apiKey defaultApiKey defaultHeaders headers) key
        = ((assocGet headers key).or
            ((assocGet (defaultHeaders.getD []) key).or
              ((assocGet (apiKeyHeaderFields (jsOrKey apiKey defaultApiKey)) key).or
                (assocGet [("Content-Type", "application/json")] key)))) := by
  intro apiKey defaultApiKey defaultHeaders headers key hh hd
  constructor
  · rw [multipartHeaders, assocGet_spreadInto headers hh, assocGet_spreadInto _ hd]
  · rw [jsonPathHeaders, assocGet_spreadInto headers hh, assocGet_spreadInto _ hd,
      assocGet_spreadInto _ (apiKeyHeaderFields_nodup _)]

/-! ### Claim C10 -/

/-- Claim C10: subscription ids are globally unique for the lifetime of a
client: every subscribe call returns the stringified value of the strictly
incremented counter, no other operation (unsubscribe, inbound message,
close, reconnect) ever touches the counter, and hence no id is ever
returned twice over any operation sequence. -/
theorem claim_C10_subscription_ids_unique :
    (∀ (c : WSClient) (ops : List ClientOp), ((runOps c ops).2).Nodup) ∧
    (∀ (c : WSClient) (opts : SubOptions),
      (subscribeStep c opts).1 = jsNatToString (c.messageId + 1) ∧
      (subscribeStep c opts).2.messageId = c.messageId + 1) ∧
    (∀ (c : WSClient) (id : String), (unsubscribeStep c id).messageId = c.messageId) ∧
    (∀ c : WSClient, (closeStep c).messageId = c.messageId ∧ (reconnectStep c).messageId = c.messageId) ∧
    (∀ (c : WSClient) (m : InMsg), (messageStep c m).messageId = c.messageId) := by
  have main : ∀ (ops : List ClientOp) (c : WSClient),
      ((runOps c ops).2).Nodup ∧
      ∀ id ∈ (runOps c ops).2, ∃ n, c.messageId < n ∧ id = jsNatToString n := by
    intro ops
    induction ops with
    | nil => intro c; simp [runOps]
    | cons op rest ih =>
      intro c
      match op with
      | .subOp opts =>
        have hc := ih (subscribeStep c opts).2
        have hmid : (subscribeStep c opts).2.messageId = c.messageId + 1 := rfl
        constructor
        · simp only [runOps, List.nodup_cons]
          refine ⟨?_, hc.1⟩
          intro hin
          obtain ⟨n, hn, hid⟩ := hc.2 _ hin
          rw [hmid] at hn
          have := jsNatToString_inj hid
          omega
        · intro id hid
          simp only [runOps, List.mem_cons] at hid
          rcases hid with hid | hid
          · exact ⟨c.messageId + 1, Nat.lt_succ_self _, hid⟩
          · obtain ⟨n, hn, hid2⟩ := hc.2 _ hid
            rw [hmid] at hn
            exact ⟨n, by omega, hid2⟩
      | .unsubOp id => exact ih (unsubscribeStep c id)
      | .closeOp => exact ih (closeStep c)
      | .reconnectOp => exact ih (reconnectStep c)
      | .msgOp m => exact ih (messageStep c m)
  exact ⟨fun c ops => (main ops c).1, fun c opts => ⟨rfl, rfl⟩,
    fun c id => rfl, fun c => ⟨rfl, rfl⟩, fun c m => rfl⟩



/-- Witness for claim C6: a per-call header overrides both the instance
default and the api-key layer for the same key. -/
theorem claim_C6_header_precedence_witness :
    assocGet (multipartHeaders (some "k") none (some [("x-api-key", "d")]) [("x-api-key", "h")]) "x-api-key"
      = ((assocGet [("x-api-key", "h")] "x-api-key").or
          ((assocGet ((some [("x-api-key", "d")]).getD []) "x-api-key").or
            (assocGet (apiKeyHeaderFields (jsOrKey (some "k") none)) "x-api-key"))) ∧
    assocGet (jsonPathHeaders (some "k") none (some [("x-api-key", "d")]) [("x-api-key", "h")]) "x-api-key"
      = ((assocGet [("x-api-key", "h")] "x-api-key").or
          ((assocGet ((some [("x-api-key", "d")]).getD []) "x-api-key").or
            ((assocGet (apiKeyHeaderFields (jsOrKey (some "k") none)) "x-api-key").or
              (assocGet [("Content-Type", "application/json")] "x-api-key")))) :=
  claim_C6_header_precedence (some "k") none (some [("x-api-key", "d")]) [("x-api-key", "h")]
    "x-api-key" (by simp) (by simp)

/-! ### Claim C7 -/

/-- Counterexample to claim C7 as stated: for a non-success response whose
parsed body is `{error: ""}`, the `error` field is defined, so the claimed
first-defined selection would report the empty string, but the code (JS
`||` selects the first truthy operand) reports the raw status text. -/
theorem claim_C7_counterexample :
    runRequest (.success ⟨false, "Bad Request", some (.vObj [("error", .vStr "")]), ""⟩)
      = errorResponse (.vStr "Bad Request") ∧
    specFirstDefined (.vObj [("error", .vStr "")]) "Bad Request" = .vStr "" ∧
    JSVal.vStr "" ≠ JSVal.vStr "Bad Request" := by
  refine ⟨rfl, rfl, ?_⟩
  simp

/-- Claim C7 (amended): the low-level request function never lets an
exception escape — every outcome yields either the parsed success body or
the uniform `{data, errors}` error response; for a non-success status with
parseable JSON body the reported message derives from the first truthy
(JS `||`) of the parsed `error` field, the parsed `message` field, the
nested `error.message`, or the raw status text, fed through the catch-all
normalizer; moreover the nested `error.message` alternative can never be
selected, because it is only evaluated when the `error` field is falsy, in
which case it is `undefined`; a rejected fetch is normalized the same
way. -/
theorem claim_C7_uniform_error_result :
    (∀ o : FetchOutcome,
      (∃ r b, o = .success r ∧ r.ok = true ∧ r.jsonBody = some b ∧ runRequest o = b) ∨
      (∃ m, runRequest o = errorResponse m)) ∧
    (∀ (r : FetchResponse) (d : JSVal), r.ok = false → r.jsonBody = some d →
      runRequest (.success r)
        = errorResponse (catchMessage (jsOr (jsOr (jsOr (getField d "error") (getField d "message"))
            (getField (getField d "error") "message")) (.vStr r.statusText)))) ∧
    (∀ d : JSVal, jsTruthy (getField d "error") = false →
      getField (getField d "error") "message" = .vUndef) ∧
    (∀ e : JSVal, runRequest (.networkError e) = errorResponse (catchMessage e)) := by
  refine ⟨?_, ?_, ?_, ?_⟩
  · intro o
    match o with
    | .networkError e => exact Or.inr ⟨catchMessage e, rfl⟩
    | .success r =>
      by_cases hok : r.ok
      · match hj : r.jsonBody with
        | some b =>
          exact Or.inl ⟨r, b, rfl, hok, hj, by simp [runRequest, innerRequest, hok, hj]⟩
        | none =>
          exact Or.inr ⟨catchMessage (.vObj [("message", .vStr "Unexpected end of JSON input")]),
            by simp [runRequest, innerRequest, hok, hj]⟩
      · match hj : r.jsonBody with
        | some d =>
          exact Or.inr ⟨catchMessage (selectThrown d r.statusText),
            by simp [runRequest, innerRequest, hok, hj]⟩
        | none =>
          exact Or.inr ⟨catchMessage (selectThrown (.vObj [("error", .vStr r.textBody)]) r.statusText),
            by simp [runRequest, innerRequest, hok, hj]⟩
  · intro r d hok hj
    simp [runRequest, innerRequest, hok, hj, selectThrown]
  · intro d hfalse
    match hge : getField d "error" with
    | .vNull | .vUndef | .vBool _ | .vNum _ | .vStr _ => simp [getField]
    | .vFile _ | .vFileList _ | .vArr _ | .vObj _ => simp [hge, jsTruthy] at hfalse
  · intro e
    rfl

/-- Witness for claim C7 at a concrete non-success response. -/
theorem claim_C7_uniform_error_result_witness :
    runRequest (.success ⟨false, "Internal Server Error", some (.vObj [("message", .vStr "oops")]), ""⟩)
      = errorResponse (catchMessage (jsOr (jsOr (jsOr
          (getField (.vObj [("message", .vStr "oops")]) "error")
          (getField (.vObj [("message", .vStr "oops")]) "message"))
          (getField (getField (.vObj [("message", .vStr "oops")]) "error") "message"))
          (.vStr "Internal Server Error"))) :=
  claim_C7_uniform_error_result.2.1 ⟨false, "Internal Server Error", some (.vObj [("message", .vStr "oops")]), ""⟩
    (.vObj [("message", .vStr "oops")]) rfl rfl

/-! ### Claim C8 -/

/-- Claim C8: `hasFiles` is false on the empty object, on a nested
file-less tree, and on `null`; and a request in which neither
`options.files` nor the variables tree contains any file takes the plain
JSON path, never invoking the multipart builder. -/
theorem claim_C8_no_file_fast_path :
    hasFiles (.vObj []) = false ∧
    hasFiles (.vObj [("a", .vNum 1), ("b", .vArr [.vNum 1, .vNum 2, .vNum 3])]) = false ∧
    hasFiles .vNull = false ∧
    (∀ (optFiles optVars : Option JSVal),
      (∀ f, optFiles = some f → getFilesLength f = 0) →
      (∀ v, optVars = some v → hasFiles v = false) →
      hasFilesToUpload optFiles optVars = false ∧
      ∀ q : String, ∃ body, buildRequestBody q optVars optFiles = .jsonBody body) := by
  refine ⟨rfl, rfl, rfl, ?_⟩
  intro optFiles optVars hf hv
  have hdec : hasFilesToUpload optFiles optVars = false := by
    simp only [hasFilesToUpload, Bool.or_eq_false_iff]
    constructor
    · match optFiles with
      | none => rfl
      | some f => simp [hf f rfl]
    · match optVars with
      | none => rfl
      | some v => simp [hv v rfl]
  refine ⟨hdec, fun q => ⟨.vObj ([("query", JSVal.vStr q)]
    ++ (match optVars with | some (.vUndef) => [] | some v => [("variables", v)] | none => [])
    ++ (match optFiles with | some (.vUndef) => [] | some f => [("files", f)] | none => [])), ?_⟩⟩
  simp [buildRequestBody, hdec]
  rcases optVars with _ | v <;> rcases optFiles with _ | f <;>
    first
      | rfl
      | (cases v <;> rfl)
      | (cases f <;> rfl)
      | (cases v <;> cases f <;> rfl)

/-- Witness for claim C8 at an empty explicit file list and a file-less
variables object. -/
theorem claim_C8_no_file_fast_path_witness :
    hasFilesToUpload (some (.vArr [])) (some (.vObj [("a", .vNum 1)])) = false ∧
    ∀ q : String, ∃ body,
      buildRequestBody q (some (.vObj [("a", .vNum 1)])) (some (.vArr [])) = .jsonBody body :=
  claim_C8_no_file_fast_path.2.2.2 (some (.vArr [])) (some (.vObj [("a", .vNum 1)]))
    (fun f hf => by cases hf; rfl) (fun v hv => by cases hv; rfl)



/-! ### Claim C1 -/

theorem jsNatToString_0 : jsNatToString 0 = "0" := by decide
theorem jsNatToString_1 : jsNatToString 1 = "1" := by decide
theorem jsNatToString_2 : jsNatToString 2 = "2" := by decide

/-- Claim C1, evaluated on the code: for `options.files = [f1, f2]` and
`variables = {avatar: f3}` the multipart map is exactly
`{"0": ["variables.files.0"], "1": ["variables.files.1"],
"2": ["variables.avatar"]}` and the file parts are `f1, f2, f3` — but the
`variables` object placed in `operations` is `{avatar: null}`: the
placeholder `files: [null, null]` array synthesized by the explicit-files
step is discarded when `cleanVariables` is overwritten with
`extracted.cleanVariables`, so the transmitted variables carry no `files`
key at all and the declared paths `variables.files.0/1` point at nothing. -/
theorem claim_C1_explicit_embedded_merge :
    buildRequestBody "m" (some (.vObj [("avatar", .vFile 3)])) (some (.vArr [.vFile 1, .vFile 2]))
      = .multipart
          (.vObj [("query", .vStr "m"), ("variables", .vObj [("avatar", .vNull)])])
          [("0", ["variables.files.0"]), ("1", ["variables.files.1"]), ("2", ["variables.avatar"])]
          [.vFile 1, .vFile 2, .vFile 3] ∧
    getField (.vObj [("avatar", JSVal.vNull)]) "files" = .vUndef := by
  constructor
  · simp [buildRequestBody, hasFilesToUpload, hasFiles, hasFileValue, hasFileInFields, hasFileInList,
      isDuckFields, lookupField, getFilesLength, convertToFileArray, jsTruthy, extractFiles_eq,
      dfsPairs, dfsPairsFields, dfsPairsElems, dfsClean, dfsCleanFields, dfsCleanElems,
      isFileObject, isFileListObject, arrayFrom, jsOr, getField, setObjField, assocSet,
      mapValueAtIndex, assocGet, mapEntriesFrom, buildPath, extendPath,
      jsNatToString_0, jsNatToString_1, jsNatToString_2, List.range_succ, spreadInto]
  · rfl



/-! ### Claim C2 -/

theorem mapEntriesFrom_length (p : String) :
    ∀ (ps : List (JSVal × List PathSeg)) (k : Nat), (mapEntriesFrom k p ps).length = ps.length := by
  intro ps
  induction ps with
  | nil => intro k; rfl
  | cons q rest ih => intro k; simp [mapEntriesFrom, ih]

theorem mapEntriesFrom_keys (p : String) :
    ∀ (ps : List (JSVal × List PathSeg)) (k : Nat),
      (mapEntriesFrom k p ps).map Prod.fst
        = (List.range ps.length).map (fun i => jsNatToString (k + i)) := by
  intro ps
  induction ps with
  | nil => intro k; rfl
  | cons q rest ih =>
    intro k
    simp only [mapEntriesFrom, List.map_cons, List.length_cons, List.range_succ_eq_map,
      List.map_map, ih]
    congr 1
    apply List.map_congr_left
    intro a _
    simp only [Function.comp_apply]
    congr 1
    omega

/-- On a tree without array-like coercions, the clean tree of the
traversal is the spec nullification: same shape, file leaves nulled. -/
theorem dfsClean_eq_nullify :
    (∀ v : JSVal, noArrayLike v = true → dfsClean v = nullifyFiles v)
    ∧ (∀ fields : List (String × JSVal), noArrayLikeFields fields = true →
        dfsCleanFields fields = nullifyFields fields)
    ∧ (∀ (parent : JSVal) (elems : List JSVal) (h : ∀ e ∈ elems, sizeOf e < sizeOf parent),
        noArrayLikeList elems = true → dfsCleanElems parent elems h = nullifyList elems) := by
  apply dfsClean.mutual_induct
  case case1 =>
    intro v hfile _
    match v with
    | .vFile _ =>
      rw [dfsClean.eq_def]
      simp [isFileObject, nullifyFiles]
    | .vObj fs =>
      simp only [isFileObject] at hfile
      rw [dfsClean.eq_def]
      simp [isFileObject, hfile, nullifyFiles]
    | .vNull | .vUndef | .vBool _ | .vNum _ | .vStr _ | .vFileList _ | .vArr _ =>
      simp [isFileObject] at hfile
  case case2 =>
    intro v hfile hlist ih hna
    match v with
    | .vFileList items => simp [noArrayLike] at hna
    | .vArr items =>
      have hel : noArrayLikeList items = true := by simpa [noArrayLike] using hna
      rw [dfsClean.eq_def]
      rw [if_neg hfile, if_pos hlist]
      simp only [nullifyFiles]
      exact congrArg JSVal.vArr (ih hel)
    | .vObj fs =>
      exfalso
      simp only [isFileListObject] at hlist
      simp only [noArrayLike] at hna
      match hl : lookupField fs "length" with
      | some (.vNum n) => rw [hl] at hna; simp at hna
      | some (.vNull) | some (.vUndef) | some (.vBool _) | some (.vStr _) | some (.vFile _)
      | some (.vFileList _) | some (.vArr _) | some (.vObj _) | none =>
        rw [hl] at hlist; simp at hlist
    | .vNull | .vUndef | .vBool _ | .vNum _ | .vStr _ | .vFile _ =>
      simp [isFileListObject] at hlist
  case case3 =>
    intro items hfile hlist ih
    exact absurd rfl hlist
  case case4 =>
    intro fields hfile hlist ih hna
    have hf : noArrayLikeFields fields = true := by
      simp only [noArrayLike, Bool.and_eq_true] at hna
      exact hna.2
    rw [dfsClean.eq_def]
    rw [if_neg (by simp [hfile]), if_neg (by simp [hlist])]
    simp only [nullifyFiles]
    have hduck : isDuckFields fields = false := by
      simpa [isFileObject] using hfile
    rw [hduck]
    simp [ih hf]
  case case5 =>
    intro other harr hobj hfile hlist _
    match other with
    | .vNull | .vUndef | .vBool _ | .vNum _ | .vStr _ =>
      rw [dfsClean.eq_def]
      simp [isFileObject, isFileListObject, nullifyFiles]
    | .vFile f => exact absurd rfl hfile
    | .vFileList l => exact absurd rfl hlist
    | .vArr items => exact (harr items rfl).elim
    | .vObj fs => exact (hobj fs rfl).elim
  case case6 =>
    intro _
    simp [dfsCleanFields, nullifyFields]
  case case7 =>
    intro k val fs ih1 ih2 hna
    simp only [noArrayLikeFields, Bool.and_eq_true] at hna
    simp [dfsCleanFields, nullifyFields, ih1 hna.1, ih2 hna.2]
  case case8 =>
    intro parent h _ _
    simp [dfsCleanElems, nullifyList]
  case case9 =>
    intro parent e es h hdup ih1 ih2 hna
    simp only [noArrayLikeList, Bool.and_eq_true] at hna
    simp [dfsCleanElems, nullifyList, ih1 hna.1, ih2 hna.2]

/-- Claim C2 (amended): for every variables tree the map keys are exactly
the decimal numerals `"0" ... "(n-1)"` for `n` discovered files, assigned
in discovery order (the Nth discovered file gets key `"N"`, dense from 0);
and for trees in which no value triggers the file-list coercion (no native
FileList and no non-array object with numeric `length`), `cleanVariables`
is structurally identical to the input with every file leaf replaced by
null.  (On array-like values the code rebuilds them as plain arrays, so
the identity as originally stated fails; see the counterexample.) -/
theorem claim_C2_extraction_determinism :
    (∀ vars : JSVal,
      ((extractFiles vars).map.map Prod.fst)
        = (List.range (extractFiles vars).files.length).map jsNatToString ∧
      (extractFiles vars).map.length = (extractFiles vars).files.length) ∧
    (∀ vars : JSVal, noArrayLike vars = true →
      (extractFiles vars).cleanVariables = nullifyFiles vars) := by
  constructor
  · intro vars
    rw [extractFiles_eq]
    constructor
    · simp only [mapEntriesFrom_keys, List.length_map]
      apply List.map_congr_left
      intro i _
      simp
    · simp [mapEntriesFrom_length]
  · intro vars hna
    rw [extractFiles_eq]
    exact dfsClean_eq_nullify.1 vars hna

/-- Witness for claim C2 on a tree with two embedded files. -/
theorem claim_C2_extraction_determinism_witness :
    noArrayLike (.vObj [("a", .vFile 1), ("b", .vObj [("c", .vFile 2)])]) = true ∧
    (extractFiles (.vObj [("a", .vFile 1), ("b", .vObj [("c", .vFile 2)])])).cleanVariables
      = nullifyFiles (.vObj [("a", .vFile 1), ("b", .vObj [("c", .vFile 2)])]) :=
  ⟨by rfl, claim_C2_extraction_determinism.2 _ (by rfl)⟩

/-- Counterexample to claim C2 as stated: an object with a numeric
`length` property contains no file, yet `cleanVariables` is not the input
tree — the object is coerced by `Array.from` into a plain array. -/
theorem claim_C2_counterexample :
    (extractFiles (.vObj [("a", .vObj [("length", .vNum 1), ("b", .vNum 2)])])).files = [] ∧
    (extractFiles (.vObj [("a", .vObj [("length", .vNum 1), ("b", .vNum 2)])])).cleanVariables
      = .vObj [("a", .vArr [.vUndef])] ∧
    JSVal.vObj [("a", .vArr [.vUndef])]
      ≠ .vObj [("a", .vObj [("length", .vNum 1), ("b", .vNum 2)])] := by
  refine ⟨?_, ?_, by simp⟩
  · rw [extractFiles_eq]
    simp [dfsPairs, dfsPairsFields, dfsPairsElems, isFileObject, isDuckFields, lookupField,
      isFileListObject, arrayFrom, jsNatToString_0, List.range_succ]
  · rw [extractFiles_eq]
    simp [dfsClean, dfsCleanFields, dfsCleanElems, isFileObject, isDuckFields, lookupField,
      isFileListObject, arrayFrom, jsNatToString_0, List.range_succ]



/-! ### Claim C9 -/

theorem hasFileInList_any (l : List JSVal) : hasFileInList l = l.any hasFileValue := by
  induction l with
  | nil => rfl
  | cons v vs ih => simp [hasFileInList, ih, List.any_cons]

theorem hasFileInFields_any (l : List (String × JSVal)) :
    hasFileInFields l = l.any (fun kv => hasFileValue kv.2) := by
  induction l with
  | nil => rfl
  | cons kv rest ih =>
    obtain ⟨k, v⟩ := kv
    simp [hasFileInFields, ih, List.any_cons]

theorem lookupField_mem {fs : List (String × JSVal)} {k : String} {w : JSVal}
    (h : lookupField fs k = some w) : ∃ kv ∈ fs, kv.2 = w := by
  induction fs with
  | nil => simp [lookupField] at h
  | cons e rest ih =>
    obtain ⟨k0, v0⟩ := e
    by_cases hk : k0 = k
    · simp [lookupField, hk] at h
      exact ⟨(k0, v0), by simp, h⟩
    · simp only [lookupField, if_neg hk] at h
      obtain ⟨kv, hm, hv⟩ := ih h
      exact ⟨kv, by simp [hm], hv⟩

theorem arrayFrom_obj_mem {fs : List (String × JSVal)} {e : JSVal}
    (h : e ∈ arrayFrom (.vObj fs)) : e = .vUndef ∨ ∃ kv ∈ fs, kv.2 = e := by
  simp only [arrayFrom] at h
  match hl : lookupField fs "length" with
  | some (.vNum n) =>
    rw [hl] at h
    simp only [List.mem_map] at h
    obtain ⟨i, _, hei⟩ := h
    match hlk : lookupField fs (jsNatToString i) with
    | some w =>
      rw [hlk] at hei
      simp at hei
      exact Or.inr (hei ▸ lookupField_mem hlk)
    | none =>
      rw [hlk] at hei
      simp at hei
      exact Or.inl hei.symm
  | some (.vNull) | some (.vUndef) | some (.vBool _) | some (.vStr _) | some (.vFile _)
  | some (.vFileList _) | some (.vArr _) | some (.vObj _) | none =>
    rw [hl] at h
    simp at h

/-- Every extraction of at least one file is seen by the `hasFiles`
classifier, and conversely on trees without array-like coercions. -/
theorem dfsPairs_hasFile :
    (∀ v : JSVal, dfsPairs v ≠ [] → hasFileValue v = true)
    ∧ (∀ fields : List (String × JSVal), dfsPairsFields fields ≠ [] →
        ∃ kv ∈ fields, hasFileValue kv.2 = true)
    ∧ (∀ (parent : JSVal) (elems : List JSVal) (h : ∀ e ∈ elems, sizeOf e < sizeOf parent) (i : Nat),
        dfsPairsElems parent elems h i ≠ [] → ∃ e ∈ elems, hasFileValue e = true) := by
  apply dfsPairs.mutual_induct
  case case1 =>
    intro v hfile _
    match v with
    | .vFile _ => rfl
    | .vObj fs =>
      simp only [isFileObject] at hfile
      simp [hasFileValue, hfile]
    | .vNull | .vUndef | .vBool _ | .vNum _ | .vStr _ | .vFileList _ | .vArr _ =>
      simp [isFileObject] at hfile
  case case2 =>
    intro v hfile hlist ih hne
    match v with
    | .vFileList items => rfl
    | .vArr items =>
      rw [dfsPairs.eq_def] at hne
      rw [if_neg hfile, if_pos hlist] at hne
      obtain ⟨e, he, hfe⟩ := ih hne
      simp only [hasFileValue, hasFileInList_any, List.any_eq_true]
      exact ⟨e, he, hfe⟩
    | .vObj fs =>
      rw [dfsPairs.eq_def] at hne
      rw [if_neg hfile, if_pos hlist] at hne
      obtain ⟨e, he, hfe⟩ := ih hne
      rcases arrayFrom_obj_mem he with hu | ⟨kv, hm, hv⟩
      · subst hu; simp [hasFileValue] at hfe
      · simp only [hasFileValue]
        by_cases hd : isDuckFields fs
        · simp [hd]
        · simp only [hd, if_neg, Bool.false_eq_true, if_false, hasFileInFields_any,
            List.any_eq_true]
          exact ⟨kv, hm, hv ▸ hfe⟩
  case case3 =>
    intro items hfile hlist _
    exact absurd rfl hlist
  case case4 =>
    intro fields hfile hlist ih hne
    rw [dfsPairs.eq_def] at hne
    rw [if_neg hfile, if_neg hlist] at hne
    obtain ⟨kv, hm, hv⟩ := ih hne
    have hd : isDuckFields fields = false := by simpa [isFileObject] using hfile
    simp only [hasFileValue, hd, Bool.false_eq_true, if_false, hasFileInFields_any,
      List.any_eq_true]
    exact ⟨kv, hm, hv⟩
  case case5 =>
    intro other harr hobj hfile hlist hne
    match other with
    | .vNull | .vUndef | .vBool _ | .vNum _ | .vStr _ =>
      exact absurd (by rw [dfsPairs.eq_def]; simp [isFileObject, isFileListObject]) hne
    | .vFile f => exact absurd rfl hfile
    | .vFileList l => exact absurd rfl hlist
    | .vArr items => exact (harr items rfl).elim
    | .vObj fs => exact (hobj fs rfl).elim
  case case6 =>
    intro hne
    simp [dfsPairsFields] at hne
  case case7 =>
    intro k val fs ih1 ih2 hne
    simp only [dfsPairsFields, ne_eq, List.append_eq_nil, List.map_eq_nil_iff, not_and] at hne
    by_cases h1 : dfsPairs val = []
    · obtain ⟨kv, hm, hv⟩ := ih2 (hne h1)
      exact ⟨kv, by simp [hm], hv⟩
    · exact ⟨(k, val), by simp, ih1 h1⟩
  case case8 =>
    intro parent i h _ hne
    simp [dfsPairsElems] at hne
  case case9 =>
    intro parent i e es h hdup ih1 ih2 hne
    simp only [dfsPairsElems, ne_eq, List.append_eq_nil, List.map_eq_nil_iff, not_and] at hne
    by_cases h1 : dfsPairs e = []
    · obtain ⟨x, hm, hv⟩ := ih2 (hne h1)
      exact ⟨x, by simp [hm], hv⟩
    · exact ⟨e, by simp, ih1 h1⟩

/-- Converse on trees without array-like coercions. -/
theorem hasFile_dfsPairs :
    (∀ v : JSVal, noArrayLike v = true → hasFileValue v = true → dfsPairs v ≠ [])
    ∧ (∀ fields : List (String × JSVal), noArrayLikeFields fields = true →
        (∃ kv ∈ fields, hasFileValue kv.2 = true) → dfsPairsFields fields ≠ [])
    ∧ (∀ (parent : JSVal) (elems : List JSVal) (h : ∀ e ∈ elems, sizeOf e < sizeOf parent) (i : Nat),
        noArrayLikeList elems = true → (∃ e ∈ elems, hasFileValue e = true) →
        dfsPairsElems parent elems h i ≠ []) := by
  apply dfsPairs.mutual_induct
  case case1 =>
    intro v hfile _ _
    rw [dfsPairs.eq_def]
    rw [if_pos hfile]
    simp
  case case2 =>
    intro v hfile hlist ih hna hhas
    match v with
    | .vFileList items => simp [noArrayLike] at hna
    | .vArr items =>
      have hel : noArrayLikeList items = true := by simpa [noArrayLike] using hna
      rw [dfsPairs.eq_def]
      rw [if_neg hfile, if_pos hlist]
      apply ih hel
      simp only [hasFileValue, hasFileInList_any, List.any_eq_true] at hhas
      exact hhas
    | .vObj fs =>
      exfalso
      simp only [isFileListObject] at hlist
      simp only [noArrayLike] at hna
      match hl : lookupField fs "length" with
      | some (.vNum n) => rw [hl] at hna; simp at hna
      | some (.vNull) | some (.vUndef) | some (.vBool _) | some (.vStr _) | some (.vFile _)
      | some (.vFileList _) | some (.vArr _) | some (.vObj _) | none =>
        rw [hl] at hlist; simp at hlist
    | .vNull | .vUndef | .vBool _ | .vNum _ | .vStr _ | .vFile _ =>
      simp [isFileListObject] at hlist
  case case3 =>
    intro items hfile hlist _
    exact absurd rfl hlist
  case case4 =>
    intro fields hfile hlist ih hna hhas
    have hnf : noArrayLikeFields fields = true := by
      simp only [noArrayLike, Bool.and_eq_true] at hna
      exact hna.2
    have hd : isDuckFields fields = false := by simpa [isFileObject] using hfile
    rw [dfsPairs.eq_def]
    rw [if_neg hfile, if_neg hlist]
    apply ih hnf
    simp only [hasFileValue, hd, Bool.false_eq_true, if_false, hasFileInFields_any,
      List.any_eq_true] at hhas
    exact hhas
  case case5 =>
    intro other harr hobj hfile hlist _ hhas
    match other with
    | .vNull | .vUndef | .vBool _ | .vNum _ | .vStr _ =>
      simp [hasFileValue] at hhas
    | .vFile f => exact absurd rfl hfile
    | .vFileList l => exact absurd rfl hlist
    | .vArr items => exact (harr items rfl).elim
    | .vObj fs => exact (hobj fs rfl).elim
  case case6 =>
    intro _ hhas
    simp at hhas
  case case7 =>
    intro k val fs ih1 ih2 hna hhas
    simp only [noArrayLikeFields, Bool.and_eq_true] at hna
    simp only [dfsPairsFields, ne_eq, List.append_eq_nil, List.map_eq_nil_iff, not_and]
    intro h1
    rcases hhas with ⟨kv, hm, hv⟩
    rcases List.mem_cons.mp hm with heq | htail
    · exfalso
      exact ih1 hna.1 (by rw [heq] at hv; exact hv) h1
    · exact ih2 hna.2 ⟨kv, htail, hv⟩
  case case8 =>
    intro parent i h _ _ hhas
    simp at hhas
  case case9 =>
    intro parent i e es h hdup ih1 ih2 hna hhas
    simp only [noArrayLikeList, Bool.and_eq_true] at hna
    simp only [dfsPairsElems, ne_eq, List.append_eq_nil, List.map_eq_nil_iff, not_and]
    intro h1
    rcases hhas with ⟨x, hm, hv⟩
    rcases List.mem_cons.mp hm with heq | htail
    · exfalso
      exact ih1 hna.1 (by rw [heq] at hv; exact hv) h1
    · exact ih2 hna.2 ⟨x, htail, hv⟩

theorem dfsPairs_scalar_nil :
    dfsPairs .vNull = [] ∧ dfsPairs .vUndef = [] ∧ (∀ b, dfsPairs (.vBool b) = []) ∧
    (∀ n, dfsPairs (.vNum n) = []) ∧ (∀ s, dfsPairs (.vStr s) = []) := by
  refine ⟨?_, ?_, ?_, ?_, ?_⟩ <;>
    first
      | (rw [dfsPairs.eq_def]; simp [isFileObject, isFileListObject])
      | (intro x; rw [dfsPairs.eq_def]; simp [isFileObject, isFileListObject])

/-- Claim C9 (amended): whenever `extractFiles` returns a non-empty file
list, `hasFiles` is true; and on trees without array-like coercions (no
native FileList and no non-array object with numeric `length`) the
equivalence holds in both directions.  As stated the equivalence fails:
`hasFiles` searches all object values while `extractFiles` expands an
object with a numeric `length` only through its integer indices, so a file
stored under a non-index key of such an object is seen by `hasFiles` but
never extracted (and an empty native FileList is likewise `hasFiles`-true
with nothing to extract). -/
theorem claim_C9_hasfiles_extract_agree :
    (∀ v : JSVal, (extractFiles v).files ≠ [] → hasFiles v = true) ∧
    (∀ v : JSVal, noArrayLike v = true →
      (hasFiles v = true ↔ (extractFiles v).files ≠ [])) := by
  have hfiles : ∀ v : JSVal, (extractFiles v).files = (dfsPairs v).map Prod.fst := by
    intro v
    rw [extractFiles_eq]
  have htruthy : ∀ v : JSVal, dfsPairs v ≠ [] → jsTruthy v = true := by
    intro v hne
    match v with
    | .vFile _ | .vFileList _ | .vArr _ | .vObj _ => rfl
    | .vNull => exact absurd dfsPairs_scalar_nil.1 hne
    | .vUndef => exact absurd dfsPairs_scalar_nil.2.1 hne
    | .vBool b =>
      by_cases hb : b = true
      · simp [jsTruthy, hb]
      · exact absurd (dfsPairs_scalar_nil.2.2.1 b) hne
    | .vNum n => exact absurd (dfsPairs_scalar_nil.2.2.2.1 n) hne
    | .vStr s3 => exact absurd (dfsPairs_scalar_nil.2.2.2.2 s3) hne
  constructor
  · intro v hne
    rw [hfiles] at hne
    have hpne : dfsPairs v ≠ [] := fun h => hne (by rw [h]; rfl)
    have h1 := dfsPairs_hasFile.1 v hpne
    have h2 := htruthy v hpne
    simp [hasFiles, h2, h1]
  · intro v hna
    constructor
    · intro hh
      have h2 : jsTruthy v = true := by
        by_cases ht : jsTruthy v = true
        · exact ht
        · simp [hasFiles, ht] at hh
      have h1 : hasFileValue v = true := by simpa [hasFiles, h2] using hh
      rw [hfiles]
      intro hmapnil
      exact hasFile_dfsPairs.1 v hna h1 (List.map_eq_nil_iff.mp hmapnil)
    · intro hne
      rw [hfiles] at hne
      have hpne : dfsPairs v ≠ [] := fun h => hne (by rw [h]; rfl)
      simp [hasFiles, htruthy v hpne, dfsPairs_hasFile.1 v hpne]

/-- Witness for claim C9 on a one-file variables object. -/
theorem claim_C9_hasfiles_extract_agree_witness :
    hasFiles (.vObj [("a", .vFile 1)]) = true ∧
    (hasFiles (.vObj [("a", .vFile 1)]) = true ↔ (extractFiles (.vObj [("a", .vFile 1)])).files ≠ []) :=
  ⟨claim_C9_hasfiles_extract_agree.1 _
    (by rw [extractFiles_eq]
        simp [dfsPairs, dfsPairsFields, isFileObject, isDuckFields, lookupField, isFileListObject]),
   claim_C9_hasfiles_extract_agree.2 _ rfl⟩

/-- Counterexample to claim C9 as stated: a file stored under a non-index
key of an object with `length: 0` is found by `hasFiles` but the extractor
expands the object to an empty array and returns no files. -/
theorem claim_C9_counterexample :
    hasFiles (.vObj [("length", .vNum 0),
      ("a", .vObj [("name", .vStr "n"), ("type", .vStr "t"), ("size", .vNum 1)])]) = true ∧
    (extractFiles (.vObj [("length", .vNum 0),
      ("a", .vObj [("name", .vStr "n"), ("type", .vStr "t"), ("size", .vNum 1)])])).files = [] := by
  constructor
  · rfl
  · rw [extractFiles_eq]
    simp [dfsPairs, dfsPairsElems, isFileObject, isDuckFields, lookupField, isFileListObject,
      arrayFrom]



/-! ### Claim C3: path rendering -/

theorem splitDots_ne_nil : ∀ l : List Char, splitDots l ≠ [] := by
  intro l
  induction l with
  | nil => simp [splitDots]
  | cons c rest ih =>
    by_cases hc : c = '.'
    · simp [splitDots, hc]
    · simp only [splitDots, if_neg hc]
      match h : splitDots rest with
      | [] => simp
      | seg :: segs => simp

theorem splitDots_append_dot : ∀ l1 l2 : List Char,
    splitDots (l1 ++ '.' :: l2) = splitDots l1 ++ splitDots l2 := by
  intro l1 l2
  induction l1 with
  | nil => simp [splitDots]
  | cons c rest ih =>
    by_cases hc : c = '.'
    · simp [splitDots, hc, ih]
    · simp only [List.cons_append, splitDots, if_neg hc]
      match h : splitDots rest with
      | [] => exact absurd h (splitDots_ne_nil rest)
      | seg :: segs =>
        simp only [List.append_eq]
        rw [ih, h]
        simp

theorem splitDots_no_dot : ∀ l : List Char, '.' ∉ l → splitDots l = [l] := by
  intro l
  induction l with
  | nil => intro _; rfl
  | cons c rest ih =>
    intro h
    simp only [List.mem_cons, not_or] at h
    simp only [splitDots, if_neg (fun hc : c = '.' => h.1 hc.symm)]
    rw [ih h.2]

/-- A good path segment: object keys are nonempty and dot-free, numeric
indices always are. -/
def segGood : PathSeg → Bool
  | .key k => keyGood k
  | .idx _ => true

theorem string_data_mk (l : List Char) : (String.mk l).data = l := rfl

theorem keyGood_no_dot {k : String} (h : keyGood k = true) : '.' ∉ k.data := by
  simp only [keyGood, Bool.and_eq_true] at h
  simpa using h.2

theorem segString_no_dot {s : PathSeg} (h : segGood s = true) :
    '.' ∉ (match s with | .key k => k | .idx n => jsNatToString n).data := by
  match s with
  | .key k => exact keyGood_no_dot (by simpa [segGood] using h)
  | .idx n => exact jsNatToString_no_dot n

theorem buildPath_render : ∀ (segs : List PathSeg) (p : String), p ≠ "" →
    (∀ s ∈ segs, segGood s = true) →
    splitDots (buildPath p segs).data
      = splitDots p.data ++ (segsToStrings segs).map String.data := by
  intro segs
  induction segs with
  | nil => intro p _ _; simp [buildPath, segsToStrings]
  | cons s rest ih =>
    intro p hp hgood
    have hbp : buildPath p (s :: rest) = buildPath (extendPath p s) rest := rfl
    have hext : (extendPath p s).data
        = p.data ++ '.' :: (match s with | .key k => k | .idx n => jsNatToString n).data := by
      match s with
      | .key k => simp [extendPath, hp, String.data_append]
      | .idx n => simp [extendPath, String.data_append]
    have hne : extendPath p s ≠ "" := by
      intro hemp
      have : (extendPath p s).data = [] := by rw [hemp]
      rw [hext] at this
      simp at this
    rw [hbp, ih (extendPath p s) hne (fun x hx => hgood x (List.mem_cons_of_mem s hx))]
    rw [hext, splitDots_append_dot,
      splitDots_no_dot _ (segString_no_dot (hgood s (List.mem_cons_self s rest)))]
    match s with
    | .key k => simp [segsToStrings]
    | .idx n => simp [segsToStrings]

/-! ### Claim C3: substitution -/

theorem substList_nil (c : JSVal) : substList c [] = c := rfl

theorem substList_append (c : JSVal) (ps qs : List (JSVal × List PathSeg)) :
    substList c (ps ++ qs) = substList (substList c ps) qs := by
  simp [substList, List.foldl_append]

theorem setInElems_at : ∀ (pre : List JSVal) (x : JSVal) (rest' : List JSVal)
    (segs : List String) (f : JSVal) (j : Nat),
    setInElems (pre ++ x :: rest') (jsNatToString (j + pre.length)) segs f j
      = pre ++ setAtPath x segs f :: rest' := by
  intro pre
  induction pre with
  | nil =>
    intro x rest' segs f j
    simp [setInElems]
  | cons p0 pres ih =>
    intro x rest' segs f j
    have hne : jsNatToString j ≠ jsNatToString (j + (p0 :: pres).length) := by
      intro h
      have := jsNatToString_inj h
      simp at this
    simp only [List.cons_append, setInElems, if_neg hne]
    have harg : j + (p0 :: pres).length = (j + 1) + pres.length := by simp; omega
    rw [harg, ih]

theorem setInFields_at : ∀ (pre : List (String × JSVal)) (k : String) (x : JSVal)
    (rest' : List (String × JSVal)) (segs : List String) (f : JSVal),
    k ∉ pre.map Prod.fst →
    setInFields (pre ++ (k, x) :: rest') k segs f = pre ++ (k, setAtPath x segs f) :: rest' := by
  intro pre
  induction pre with
  | nil =>
    intro k x rest' segs f _
    simp [setInFields]
  | cons p0 pres ih =>
    intro k x rest' segs f hk
    obtain ⟨k0, v0⟩ := p0
    simp only [List.map_cons, List.mem_cons, not_or] at hk
    simp only [List.cons_append, setInFields, if_neg (fun h : k0 = k => hk.1 h.symm)]
    rw [ih k x rest' segs f hk.2]

theorem substList_idx_group : ∀ (ps : List (JSVal × List PathSeg)) (pre : List JSVal)
    (x : JSVal) (rest' : List JSVal) (i : Nat), pre.length = i →
    substList (.vArr (pre ++ x :: rest')) (ps.map (fun q => (q.1, .idx i :: q.2)))
      = .vArr (pre ++ substList x ps :: rest') := by
  intro ps
  induction ps with
  | nil => intro pre x rest' i _; rfl
  | cons q qs ih =>
    intro pre x rest' i hlen
    simp only [List.map_cons, substList, List.foldl_cons]
    have hstep : setAtPath (.vArr (pre ++ x :: rest')) (segsToStrings (.idx i :: q.2)) q.1
        = .vArr (pre ++ setAtPath x (segsToStrings q.2) q.1 :: rest') := by
      simp only [segsToStrings, List.map_cons]
      rw [setAtPath]
      have h0 : jsNatToString i = jsNatToString (0 + pre.length) := by rw [hlen]; simp
      rw [h0, setInElems_at]
    rw [hstep]
    exact ih pre _ rest' i hlen

theorem substList_key_group : ∀ (ps : List (JSVal × List PathSeg))
    (pre : List (String × JSVal)) (k : String) (x : JSVal) (rest' : List (String × JSVal)),
    k ∉ pre.map Prod.fst →
    substList (.vObj (pre ++ (k, x) :: rest')) (ps.map (fun q => (q.1, .key k :: q.2)))
      = .vObj (pre ++ (k, substList x ps) :: rest') := by
  intro ps
  induction ps with
  | nil => intro pre k x rest' _; rfl
  | cons q qs ih =>
    intro pre k x rest' hk
    simp only [List.map_cons, substList, List.foldl_cons]
    have hstep : setAtPath (.vObj (pre ++ (k, x) :: rest')) (segsToStrings (.key k :: q.2)) q.1
        = .vObj (pre ++ (k, setAtPath x (segsToStrings q.2) q.1) :: rest') := by
      simp only [segsToStrings, List.map_cons]
      rw [setAtPath]
      rw [setInFields_at _ _ _ _ _ _ hk]
    rw [hstep]
    exact ih pre k _ rest' hk



/-! ### Claim C3: the round trip at segment level -/

theorem goodKeysList_mem : ∀ (l : List JSVal), goodKeysList l = true → ∀ e ∈ l, goodKeys e = true := by
  intro l
  induction l with
  | nil => intro _ e he; simp at he
  | cons v vs ih =>
    intro h e he
    simp only [goodKeysList, Bool.and_eq_true] at h
    rcases List.mem_cons.mp he with rfl | htail
    · exact h.1
    · exact ih h.2 e htail

theorem goodKeysFields_mem : ∀ (l : List (String × JSVal)), goodKeysFields l = true →
    ∀ kv ∈ l, goodKeys kv.2 = true := by
  intro l
  induction l with
  | nil => intro _ kv hkv; simp at hkv
  | cons f fs ih =>
    intro h kv hkv
    obtain ⟨k, v⟩ := f
    simp only [goodKeysFields, Bool.and_eq_true] at h
    rcases List.mem_cons.mp hkv with rfl | htail
    · exact h.1
    · exact ih h.2 kv htail

theorem goodKeysList_of_forall : ∀ (l : List JSVal), (∀ e ∈ l, goodKeys e = true) →
    goodKeysList l = true := by
  intro l
  induction l with
  | nil => intro _; rfl
  | cons v vs ih =>
    intro h
    simp only [goodKeysList, Bool.and_eq_true]
    exact ⟨h v (List.mem_cons_self v vs), ih (fun e he => h e (List.mem_cons_of_mem v he))⟩

theorem goodKeys_arrayFrom_obj {fs : List (String × JSVal)}
    (h : goodKeysFields fs = true) : goodKeysList (arrayFrom (.vObj fs)) = true := by
  apply goodKeysList_of_forall
  intro e he
  rcases arrayFrom_obj_mem he with rfl | ⟨kv, hm, hv⟩
  · rfl
  · exact hv ▸ goodKeysFields_mem fs h kv hm

/-- The substitutions discovered under a node restore the node from its
clean tree: depth-first round trip at the level of path segments. -/
theorem substList_dfsPairs :
    (∀ v : JSVal, noArrayLike v = true → goodKeys v = true →
      substList (dfsClean v) (dfsPairs v) = v)
    ∧ (∀ fields : List (String × JSVal), noArrayLikeFields fields = true →
        goodKeysFields fields = true → (fields.map Prod.fst).Nodup →
        ∀ pre : List (String × JSVal), (∀ kk ∈ fields.map Prod.fst, kk ∉ pre.map Prod.fst) →
        substList (.vObj (pre ++ dfsCleanFields fields)) (dfsPairsFields fields)
          = .vObj (pre ++ fields))
    ∧ (∀ (parent : JSVal) (elems : List JSVal) (h : ∀ e ∈ elems, sizeOf e < sizeOf parent) (i : Nat),
        noArrayLikeList elems = true → goodKeysList elems = true →
        ∀ pre : List JSVal, pre.length = i →
        substList (.vArr (pre ++ dfsCleanElems parent elems h)) (dfsPairsElems parent elems h i)
          = .vArr (pre ++ elems)) := by
  apply dfsPairs.mutual_induct
  case case1 =>
    intro v hfile _ _
    rw [dfsPairs.eq_def, dfsClean.eq_def]
    rw [if_pos hfile, if_pos hfile]
    simp [substList, setAtPath, segsToStrings]
  case case2 =>
    intro v hfile hlist ih hna hgk
    match v with
    | .vFileList items => simp [noArrayLike] at hna
    | .vArr items =>
      have hel : noArrayLikeList items = true := by simpa [noArrayLike] using hna
      have hgl : goodKeysList items = true := by simpa [goodKeys] using hgk
      rw [dfsPairs.eq_def, dfsClean.eq_def]
      rw [if_neg hfile, if_pos hlist, if_neg hfile, if_pos hlist]
      have := ih hel hgl [] rfl
      simpa using this
    | .vObj fs =>
      exfalso
      simp only [isFileListObject] at hlist
      simp only [noArrayLike] at hna
      match hl : lookupField fs "length" with
      | some (.vNum n) => rw [hl] at hna; simp at hna
      | some (.vNull) | some (.vUndef) | some (.vBool _) | some (.vStr _) | some (.vFile _)
      | some (.vFileList _) | some (.vArr _) | some (.vObj _) | none =>
        rw [hl] at hlist; simp at hlist
    | .vNull | .vUndef | .vBool _ | .vNum _ | .vStr _ | .vFile _ =>
      simp [isFileListObject] at hlist
  case case3 =>
    intro items hfile hlist _
    exact absurd rfl hlist
  case case4 =>
    intro fields hfile hlist ih hna hgk
    simp only [goodKeys, Bool.and_eq_true, decide_eq_true_eq] at hgk
    have hnf : noArrayLikeFields fields = true := by
      simp only [noArrayLike, Bool.and_eq_true] at hna
      exact hna.2
    rw [dfsPairs.eq_def, dfsClean.eq_def]
    rw [if_neg hfile, if_neg hlist, if_neg hfile, if_neg hlist]
    have := ih hnf hgk.2 hgk.1.2 [] (by simp)
    simpa using this
  case case5 =>
    intro other harr hobj hfile hlist _ _
    match other with
    | .vNull | .vUndef | .vBool _ | .vNum _ | .vStr _ =>
      rw [dfsPairs.eq_def, dfsClean.eq_def]
      simp [isFileObject, isFileListObject, substList]
    | .vFile f => exact absurd rfl hfile
    | .vFileList l => exact absurd rfl hlist
    | .vArr items => exact (harr items rfl).elim
    | .vObj fs => exact (hobj fs rfl).elim
  case case6 =>
    intro _ _ _ pre _
    simp [dfsPairsFields, dfsCleanFields, substList]
  case case7 =>
    intro k val fs ih1 ih2 hna hgk hnd pre hdisj
    simp only [noArrayLikeFields, Bool.and_eq_true] at hna
    simp only [goodKeysFields, Bool.and_eq_true] at hgk
    simp only [List.map_cons, List.nodup_cons] at hnd
    simp only [dfsPairsFields, dfsCleanFields]
    rw [substList_append]
    have hknotpre : k ∉ pre.map Prod.fst := hdisj k (by simp)
    rw [substList_key_group (dfsPairs val) pre k (dfsClean val) (dfsCleanFields fs) hknotpre]
    rw [ih1 hna.1 hgk.1]
    have hpre2 : pre ++ (k, val) :: dfsCleanFields fs = (pre ++ [(k, val)]) ++ dfsCleanFields fs := by
      simp
    rw [hpre2]
    have hdisj2 : ∀ kk ∈ fs.map Prod.fst, kk ∉ (pre ++ [(k, val)]).map Prod.fst := by
      intro kk hkk
      simp only [List.map_append, List.mem_append, List.map_cons, List.map_nil,
        List.mem_singleton, not_or]
      constructor
      · exact hdisj kk (by simp [hkk])
      · intro he
        exact hnd.1 (he ▸ hkk)
    rw [ih2 hna.2 hgk.2 hnd.2 (pre ++ [(k, val)]) hdisj2]
    simp
  case case8 =>
    intro parent i h _ _ _ pre _
    simp [dfsPairsElems, dfsCleanElems, substList]
  case case9 =>
    intro parent i e es h hdup ih1 ih2 hna hgk pre hlen
    simp only [noArrayLikeList, Bool.and_eq_true] at hna
    simp only [goodKeysList, Bool.and_eq_true] at hgk
    simp only [dfsPairsElems, dfsCleanElems]
    rw [substList_append]
    rw [substList_idx_group (dfsPairs e) pre (dfsClean e) _ i hlen]
    rw [ih1 hna.1 hgk.1]
    have hpre2 : pre ++ e :: dfsCleanElems parent es
        (fun x hx => h x (List.mem_cons_of_mem e hx))
        = (pre ++ [e]) ++ dfsCleanElems parent es (fun x hx => h x (List.mem_cons_of_mem e hx)) := by
      simp
    rw [hpre2]
    rw [ih2 hna.2 hgk.2 (pre ++ [e]) (by simp; omega)]
    simp



/-! ### Claim C3: rendering the recorded paths -/

theorem dfsPairsFields_shape : ∀ (fields : List (String × JSVal)) (q : JSVal × List PathSeg),
    q ∈ dfsPairsFields fields → ∃ k' rest, q.2 = .key k' :: rest := by
  intro fields
  induction fields with
  | nil => intro q hq; simp [dfsPairsFields] at hq
  | cons f fs ih =>
    intro q hq
    obtain ⟨k, val⟩ := f
    simp only [dfsPairsFields, List.mem_append, List.mem_map] at hq
    rcases hq with ⟨q0, _, rfl⟩ | htail
    · exact ⟨k, q0.2, rfl⟩
    · exact ih q htail

/-- Under a tree with good keys, every recorded segment is good. -/
theorem dfsPairs_segs_good :
    (∀ v : JSVal, goodKeys v = true → ∀ q ∈ dfsPairs v, ∀ s3 ∈ q.2, segGood s3 = true)
    ∧ (∀ fields : List (String × JSVal), (∀ kv ∈ fields, keyGood kv.1 = true) →
        goodKeysFields fields = true →
        ∀ q ∈ dfsPairsFields fields, ∀ s3 ∈ q.2, segGood s3 = true)
    ∧ (∀ (parent : JSVal) (elems : List JSVal) (h : ∀ e ∈ elems, sizeOf e < sizeOf parent) (i : Nat),
        goodKeysList elems = true →
        ∀ q ∈ dfsPairsElems parent elems h i, ∀ s3 ∈ q.2, segGood s3 = true) := by
  apply dfsPairs.mutual_induct
  case case1 =>
    intro v hfile _ q hq s3 hs3
    rw [dfsPairs.eq_def, if_pos hfile] at hq
    simp at hq
    rw [hq] at hs3
    simp at hs3
  case case2 =>
    intro v hfile hlist ih hgk q hq s3 hs3
    rw [dfsPairs.eq_def, if_neg hfile, if_pos hlist] at hq
    have hgl : goodKeysList (arrayFrom v) = true := by
      match v with
      | .vFileList items => simpa [goodKeys, arrayFrom] using hgk
      | .vArr items => simpa [goodKeys, arrayFrom] using hgk
      | .vObj fs =>
        apply goodKeys_arrayFrom_obj
        simp only [goodKeys, Bool.and_eq_true] at hgk
        exact hgk.2
      | .vNull | .vUndef | .vBool _ | .vNum _ | .vStr _ | .vFile _ =>
        simp [isFileListObject] at hlist
    exact ih hgl q hq s3 hs3
  case case3 =>
    intro items hfile hlist _
    exact absurd rfl hlist
  case case4 =>
    intro fields hfile hlist ih hgk q hq s3 hs3
    rw [dfsPairs.eq_def, if_neg hfile, if_neg hlist] at hq
    simp only [goodKeys, Bool.and_eq_true, decide_eq_true_eq] at hgk
    have hall : ∀ kv ∈ fields, keyGood kv.1 = true := by
      have := hgk.1.1
      simp only [List.all_eq_true] at this
      exact fun kv hkv => this kv hkv
    exact ih hall hgk.2 q hq s3 hs3
  case case5 =>
    intro other harr hobj hfile hlist _ q hq s3 _
    match other with
    | .vNull | .vUndef | .vBool _ | .vNum _ | .vStr _ =>
      rw [dfsPairs.eq_def] at hq
      simp [isFileObject, isFileListObject] at hq
    | .vFile f => exact absurd rfl hfile
    | .vFileList l => exact absurd rfl hlist
    | .vArr items => exact (harr items rfl).elim
    | .vObj fs => exact (hobj fs rfl).elim
  case case6 =>
    intro _ _ q hq
    simp [dfsPairsFields] at hq
  case case7 =>
    intro k val fs ih1 ih2 hall hgkf q hq s3 hs3
    simp only [goodKeysFields, Bool.and_eq_true] at hgkf
    simp only [dfsPairsFields, List.mem_append, List.mem_map] at hq
    rcases hq with ⟨q0, hq0, rfl⟩ | htail
    · simp only at hs3
      rcases List.mem_cons.mp hs3 with rfl | hrest
      · simpa [segGood] using hall (k, val) (by simp)
      · exact ih1 hgkf.1 q0 hq0 s3 hrest
    · exact ih2 (fun kv hkv => hall kv (List.mem_cons_of_mem _ hkv)) hgkf.2 q htail s3 hs3
  case case8 =>
    intro parent i h _ _ q hq
    simp [dfsPairsElems] at hq
  case case9 =>
    intro parent i e es h hdup ih1 ih2 hgl q hq s3 hs3
    simp only [goodKeysList, Bool.and_eq_true] at hgl
    simp only [dfsPairsElems, List.mem_append, List.mem_map] at hq
    rcases hq with ⟨q0, hq0, rfl⟩ | htail
    · simp only at hs3
      rcases List.mem_cons.mp hs3 with rfl | hrest
      · rfl
      · exact ih1 hgl.1 q0 hq0 s3 hrest
    · exact ih2 hgl.2 q htail s3 hs3

theorem variables_data_split : ("variables.").data = ("variables").data ++ ['.'] := by decide

theorem splitDots_variables : splitDots ("variables").data = [("variables").data] := by decide

theorem map_mk_data (l : List String) :
    (l.map String.data).map (fun cs => (⟨cs⟩ : String)) = l := by
  induction l with
  | nil => rfl
  | cons x xs ih => simp [ih]


theorem pathSegs_rendered (k' : String) (rest : List PathSeg) (hk : keyGood k' = true)
    (hgood : ∀ s3 ∈ rest, segGood s3 = true) :
    (pathSegs ("variables." ++ buildPath "" (.key k' :: rest))).drop 1
      = segsToStrings (.key k' :: rest) := by
  have hb0 : buildPath "" (.key k' :: rest) = buildPath k' rest := by
    simp [buildPath, extendPath]
  have hkne : k' ≠ "" := by
    simp only [keyGood, Bool.and_eq_true, decide_eq_true_eq] at hk
    exact hk.1
  have hdata : ("variables." ++ buildPath k' rest).data
      = ("variables").data ++ '.' :: (buildPath k' rest).data := by
    rw [String.data_append, variables_data_split]
    simp
  rw [hb0]
  simp only [pathSegs]
  rw [hdata, splitDots_append_dot, splitDots_variables, buildPath_render rest k' hkne hgood,
    splitDots_no_dot k'.data (keyGood_no_dot hk)]
  simp only [List.singleton_append, List.cons_append, List.map_cons, List.drop_succ_cons,
    List.drop_zero, List.nil_append, map_mk_data, segsToStrings, List.map_map]
  rfl

theorem reconstruct_eq_substList : ∀ (ps : List (JSVal × List PathSeg)) (k : Nat) (c : JSVal),
    (∀ q ∈ ps, (∃ k' rest, q.2 = .key k' :: rest) ∧ (∀ s3 ∈ q.2, segGood s3 = true)) →
    ((mapEntriesFrom k "" ps).zip (ps.map Prod.fst)).foldl
      (fun acc entry => entry.1.2.foldl (fun a p => setAtPath a ((pathSegs p).drop 1) entry.2) acc) c
      = substList c ps := by
  intro ps
  induction ps with
  | nil => intro k c _; rfl
  | cons q qs ih =>
    intro k c hcond
    obtain ⟨⟨k', rest, hshape⟩, hgood⟩ := hcond q (List.mem_cons_self q qs)
    have hkg : keyGood k' = true := by
      have := hgood (.key k') (by rw [hshape]; simp)
      simpa [segGood] using this
    have hrg : ∀ s3 ∈ rest, segGood s3 = true := by
      intro s3 hs3
      exact hgood s3 (by rw [hshape]; simp [hs3])
    have hpath := pathSegs_rendered k' rest hkg hrg
    simp only [mapEntriesFrom, List.map_cons, List.zip_cons_cons, List.foldl_cons,
      List.foldl_nil]
    rw [hshape, hpath, ← hshape]
    have hstep : substList c (q :: qs) = substList (setAtPath c (segsToStrings q.2) q.1) qs := by
      simp [substList]
    rw [hstep]
    exact ih (k + 1) _ (fun q2 hq2 => hcond q2 (List.mem_cons_of_mem q hq2))

/-- Claim C3 (amended): for a well-formed variables object — no array-like
coercions (no native FileList, no non-array object with a numeric
`length`), every object carrying pairwise distinct, nonempty, dot-free
keys, and the root itself not a file-like object — substituting `files[i]`
back at the path recorded in `map[i]` into `cleanVariables`, for every
index `i` returned by `extractFiles`, reconstructs the original input
exactly. -/
theorem claim_C3_round_trip :
    ∀ fields : List (String × JSVal),
      noArrayLike (.vObj fields) = true → goodKeys (.vObj fields) = true →
      isFileObject (.vObj fields) = false →
      reconstructFromMap (extractFiles (.vObj fields)) = .vObj fields := by
  intro fields hna hgk hnf
  have hfl : isFileListObject (.vObj fields) = false := by
    simp only [noArrayLike, Bool.and_eq_true] at hna
    rcases hna with ⟨h1, _⟩
    simp only [isFileListObject]
    match hl : lookupField fields "length" with
    | some (.vNum n) => rw [hl] at h1; simp at h1
    | some (.vNull) => rfl
    | some (.vUndef) => rfl
    | some (.vBool _) => rfl
    | some (.vStr _) => rfl
    | some (.vFile _) => rfl
    | some (.vFileList _) => rfl
    | some (.vArr _) => rfl
    | some (.vObj _) => rfl
    | none => rfl
  have hpairs : dfsPairs (.vObj fields) = dfsPairsFields fields := by
    rw [dfsPairs.eq_def]
    rw [if_neg (by simp [hnf]), if_neg (by simp [hfl])]
  rw [extractFiles_eq]
  simp only [reconstructFromMap]
  rw [hpairs]
  rw [reconstruct_eq_substList (dfsPairsFields fields) 0 (dfsClean (.vObj fields))
    (fun q hq => ⟨dfsPairsFields_shape fields q hq,
      dfsPairs_segs_good.1 (.vObj fields) hgk q (by rw [hpairs]; exact hq)⟩)]
  rw [← hpairs]
  exact substList_dfsPairs.1 _ hna hgk

/-- Witness for claim C3 on a two-file variables object. -/
theorem claim_C3_round_trip_witness :
    reconstructFromMap (extractFiles (.vObj [("avatar", .vFile 3), ("docs", .vArr [.vFile 4])]))
      = .vObj [("avatar", .vFile 3), ("docs", .vArr [.vFile 4])] :=
  claim_C3_round_trip [("avatar", .vFile 3), ("docs", .vArr [.vFile 4])] (by rfl) (by decide) (by rfl)



/-- Counterexample to claim C3 as stated: a non-array object with a
numeric `length` is rebuilt as a plain array by the extraction, so
substituting the extracted file back into `cleanVariables` yields an array
where the original held an object, and the round trip fails. -/
theorem claim_C3_counterexample :
    reconstructFromMap (extractFiles (.vObj [("a", .vObj [("length", .vNum 1), ("0", .vFile 7)])]))
      = .vObj [("a", .vArr [.vFile 7])] ∧
    JSVal.vObj [("a", .vArr [.vFile 7])]
      ≠ .vObj [("a", .vObj [("length", .vNum 1), ("0", .vFile 7)])] := by
  constructor
  · have hps : (pathSegs "variables.a.0").tail = ["a", "0"] := by decide
    rw [extractFiles_eq]
    simp only [reconstructFromMap]
    simp [dfsPairs, dfsPairsFields, dfsPairsElems, dfsClean, dfsCleanFields, dfsCleanElems,
      isFileObject, isDuckFields, lookupField, isFileListObject, arrayFrom, mapEntriesFrom,
      buildPath, extendPath, jsNatToString_0, List.range_succ, hps, setAtPath, setInFields,
      setInElems, segsToStrings]
  · simp


end GqlClient
